import Mathlib

/-!
Verification of the bimaru logical solver core: a shallow embedding of the
board model (`board.py`), the tiered rule library and incremental propagator
(`rules.py`), and the tiered driver (`solver.py`), together with theorems
settling the behavioural claims about them.

Python `while` loops are embedded as structurally recursive functions on an
explicit fuel argument that over-approximates the loop's iteration count
(each loop either advances an index bounded by the board dimension or is
capped by an explicit constant in the source, so the fuel never runs out
before the loop's own exit condition fires).  Python early-`return` loops of
the shape `for ...: if bad: return False / return True` are embedded with
`List.all`.  Python `dict`s used only for keyed lookup are embedded as
association lists with last-write-wins lookup, matching `dict` assignment
semantics.  All machine integers are unbounded in Python, so clue arithmetic
is embedded over `Int` and counting over `Nat`.
-/

/-- `CellState` from `board.py`: tri-valued cell state. -/
inductive CellState where
  | EMPTY : CellState
  | SEA : CellState
  | SHIP : CellState
deriving DecidableEq, Repr

open CellState

/-- `GridCell` from `board.py`.  The optional `hint_shape` dict is embedded
as an optional association list from orthogonal offsets to expected states,
in the insertion order the parser uses. -/
structure GridCell where
  row : Nat
  col : Nat
  state : CellState
  solution : CellState
  is_hint : Bool
  hint_shape : Option (List ((Int × Int) × CellState))
deriving DecidableEq, Repr

/-- `PuzzleBoard` from `board.py`: dimension, grid, clues and the fleet. -/
structure PuzzleBoard where
  dimension : Nat
  cells : List (List GridCell)
  row_counts : List Int
  col_counts : List Int
  fleet : List Nat
deriving DecidableEq, Repr

/-- Default cell used for (never-taken in well-formed runs) out-of-range list reads. -/
def dummyCell : GridCell := ⟨0, 0, EMPTY, EMPTY, false, none⟩

/-- Read the cell at row `r`, column `c` (list access `board.cells[r][c]`). -/
def getCell (b : PuzzleBoard) (r c : Nat) : GridCell :=
  (b.cells.getD r []).getD c dummyCell

/-- `PuzzleBoard.within_bounds`. -/
def within_bounds (b : PuzzleBoard) (r c : Int) : Bool :=
  0 ≤ r && r < (b.dimension : Int) && 0 ≤ c && c < (b.dimension : Int)

/-- `PuzzleBoard.get_state_at`: off-board positions read as SEA. -/
def get_state_at (b : PuzzleBoard) (r c : Int) : CellState :=
  if within_bounds b r c then (getCell b r.toNat c.toNat).state else SEA

/-- `PuzzleBoard.get_solution_at`: off-board positions read as SEA. -/
def get_solution_at (b : PuzzleBoard) (r c : Int) : CellState :=
  if within_bounds b r c then (getCell b r.toNat c.toNat).solution else SEA

/-- Write the `state` field of cell `(r, c)` (the in-place mutation
`board.cells[r][c].state = v`). -/
def setState (b : PuzzleBoard) (r c : Nat) (v : CellState) : PuzzleBoard :=
  { b with cells :=
      b.cells.set r (((b.cells.getD r []).set c
        (let cell := (b.cells.getD r []).getD c dummyCell
         { cell with state := v }))) }

/-- Write the `state` and `is_hint` fields of cell `(r, c)` (used by
`restore_snapshot`). -/
def setStateHint (b : PuzzleBoard) (r c : Nat) (v : CellState) (h : Bool) :
    PuzzleBoard :=
  { b with cells :=
      b.cells.set r (((b.cells.getD r []).set c
        (let cell := (b.cells.getD r []).getD c dummyCell
         { cell with state := v, is_hint := h }))) }

/-- Snapshot character of one cell, from `PuzzleBoard.get_snapshot`. -/
def encodeCell (cell : GridCell) : Char :=
  if cell.is_hint then (if cell.state = SHIP then 'H' else 'h')
  else if cell.state = EMPTY then ' '
  else if cell.state = SHIP then 'S'
  else '~'

/-- Row-major character emission of `get_snapshot`, one row at a time,
starting at row `r` with `fuel` rows still to scan. -/
def snapAux (b : PuzzleBoard) (r : Nat) : Nat → List Char
  | 0 => []
  | fuel + 1 =>
      ((List.range b.dimension).map fun c => encodeCell (getCell b r c))
        ++ snapAux b (r + 1) fuel

/-- `PuzzleBoard.get_snapshot`: the board state as a row-major character
sequence (embedded as the character list the source joins). -/
def get_snapshot (b : PuzzleBoard) : List Char :=
  snapAux b 0 b.dimension

/-- One restoration step of `restore_snapshot`: decode character `ch` into
cell `(r, c)`. -/
def restoreChar (b : PuzzleBoard) (r c : Nat) (ch : Char) : PuzzleBoard :=
  if ch = 'H' then setStateHint b r c SHIP true
  else if ch = 'h' then setStateHint b r c SEA true
  else if ch = 'S' then setStateHint b r c SHIP false
  else if ch = '~' then setStateHint b r c SEA false
  else setStateHint b r c EMPTY false

/-- The `for idx, ch in enumerate(snapshot)` loop of `restore_snapshot`,
with `idx` carried explicitly and `r, c = divmod(idx, dimension)`. -/
def restoreAux (b : PuzzleBoard) (idx : Nat) : List Char → PuzzleBoard
  | [] => b
  | ch :: rest =>
      restoreAux (restoreChar b (idx / b.dimension) (idx % b.dimension) ch)
        (idx + 1) rest

/-- `PuzzleBoard.restore_snapshot`. -/
def restore_snapshot (b : PuzzleBoard) (snapshot : List Char) : PuzzleBoard :=
  restoreAux b 0 snapshot

/-- `PuzzleBoard.count_empty`. -/
def count_empty (b : PuzzleBoard) : Nat :=
  ((List.range b.dimension).map fun r =>
    ((List.range b.dimension).filter fun c =>
      (getCell b r c).state = EMPTY).length).sum

/-- `PuzzleBoard.is_solved`: no empty cells remain. -/
def is_solved (b : PuzzleBoard) : Bool :=
  count_empty b = 0

/-- `PuzzleBoard.matches_solution`: every cell state equals its stored
solution state. -/
def matches_solution (b : PuzzleBoard) : Bool :=
  (List.range b.dimension).all fun r =>
    (List.range b.dimension).all fun c =>
      (getCell b r c).state = (getCell b r c).solution

/-- `ORTHOGONAL` direction constants from `board.py`. -/
def ORTHOGONAL : List (Int × Int) := [(-1, 0), (0, -1), (1, 0), (0, 1)]

/-- `DIAGONAL` direction constants from `board.py`. -/
def DIAGONAL : List (Int × Int) := [(-1, -1), (-1, 1), (1, -1), (1, 1)]

/-- Grid well-formedness: the cell grid is `dimension × dimension` and the
clue lists have length `dimension`.  The parser always builds boards of this
shape (`PuzzleBoard.__post_init__` plus the clue assignments). -/
def wf_board (b : PuzzleBoard) : Bool :=
  b.cells.length = b.dimension &&
  b.cells.all (fun row => row.length = b.dimension) &&
  b.row_counts.length = b.dimension &&
  b.col_counts.length = b.dimension

/-- Every hint cell has a resolved (non-EMPTY) state.  A hint is a revealed
cell, so well-formed inputs satisfy this. -/
def hints_resolved (b : PuzzleBoard) : Bool :=
  b.cells.all fun row => row.all fun cell => !cell.is_hint || cell.state ≠ EMPTY

/-- `Deduction` from `rules.py`: a single proposed cell assignment. -/
structure Deduction where
  row : Nat
  col : Nat
  value : CellState
  technique : String
  tier : Nat
  difficulty : Nat
deriving DecidableEq, Repr

/-- `make_deduction` from `rules.py`. -/
def make_deduction (r c : Nat) (value : CellState) (technique : String)
    (tier difficulty : Nat) : Deduction :=
  ⟨r, c, value, technique, tier, difficulty⟩

/-- Cell of line `idx` at offset `i`: the source's
`r, c = (idx, i) if is_row else (i, idx)` followed by `board.cells[r][c]`. -/
def lineCell (b : PuzzleBoard) (idx : Nat) (is_row : Bool) (i : Nat) : GridCell :=
  if is_row then getCell b idx i else getCell b i idx

/-- `count_in_line` from `rules.py`: (ships, empties, seas) of a row or column. -/
def count_in_line (b : PuzzleBoard) (idx : Nat) (is_row : Bool) : Nat × Nat × Nat :=
  (((List.range b.dimension).filter fun i =>
      (lineCell b idx is_row i).state = SHIP).length,
   ((List.range b.dimension).filter fun i =>
      (lineCell b idx is_row i).state = EMPTY).length,
   ((List.range b.dimension).filter fun i =>
      (lineCell b idx is_row i).state ≠ SHIP ∧
      (lineCell b idx is_row i).state ≠ EMPTY).length)

/-- `get_clue` from `rules.py`. -/
def get_clue (b : PuzzleBoard) (idx : Nat) (is_row : Bool) : Int :=
  if is_row then b.row_counts.getD idx 0 else b.col_counts.getD idx 0

/-- `zero_clue` (T1.1): every EMPTY cell of a zero-clue row or column → SEA. -/
def zero_clue (b : PuzzleBoard) : List Deduction :=
  (List.range b.dimension).flatMap fun idx =>
    (if b.row_counts.getD idx 0 = 0 then
      (List.range b.dimension).filterMap fun c =>
        if (getCell b idx c).state = EMPTY then
          some (make_deduction idx c SEA "T1.1" 1 1)
        else none
     else []) ++
    (if b.col_counts.getD idx 0 = 0 then
      (List.range b.dimension).filterMap fun r =>
        if (getCell b r idx).state = EMPTY then
          some (make_deduction r idx SEA "T1.1" 1 1)
        else none
     else [])

/-- `satisfied_clue` (T1.2): line whose ship count equals its clue → every
EMPTY cell of the line becomes SEA. -/
def satisfied_clue (b : PuzzleBoard) : List Deduction :=
  (List.range b.dimension).flatMap fun idx =>
    [true, false].flatMap fun is_row =>
      let ships := (count_in_line b idx is_row).1
      let empties := (count_in_line b idx is_row).2.1
      let clue := get_clue b idx is_row
      if (ships : Int) = clue ∧ 0 < empties then
        (List.range b.dimension).filterMap fun i =>
          if (lineCell b idx is_row i).state = EMPTY then
            some (if is_row then make_deduction idx i SEA "T1.2" 1 1
                  else make_deduction i idx SEA "T1.2" 1 1)
          else none
      else []

/-- `diagonal_water` (T1.3): in-bounds EMPTY diagonal neighbors of SHIP
cells → SEA. -/
def diagonal_water (b : PuzzleBoard) : List Deduction :=
  (List.range b.dimension).flatMap fun r =>
    (List.range b.dimension).flatMap fun c =>
      if (getCell b r c).state = SHIP then
        DIAGONAL.filterMap fun d =>
          let nr : Int := (r : Int) + d.1
          let nc : Int := (c : Int) + d.2
          if within_bounds b nr nc ∧ (getCell b nr.toNat nc.toNat).state = EMPTY
          then some (make_deduction nr.toNat nc.toNat SEA "T1.3" 1 1)
          else none
      else []

/-- `hint_shape_deduction` (T1.4): SHIP-state hint cells project their stored
shape map onto in-bounds EMPTY orthogonal neighbors. -/
def hint_shape_deduction (b : PuzzleBoard) : List Deduction :=
  (List.range b.dimension).flatMap fun r =>
    (List.range b.dimension).flatMap fun c =>
      let cell := getCell b r c
      if cell.is_hint ∧ cell.state = SHIP then
        match cell.hint_shape with
        | none => []
        | some shape =>
            shape.filterMap fun entry =>
              let nr : Int := (r : Int) + entry.1.1
              let nc : Int := (c : Int) + entry.1.2
              if within_bounds b nr nc ∧
                  (getCell b nr.toNat nc.toNat).state = EMPTY then
                if entry.2 = SHIP then
                  some (make_deduction nr.toNat nc.toNat SHIP "T1.4" 1 1)
                else if entry.2 = SEA then
                  some (make_deduction nr.toNat nc.toNat SEA "T1.4" 1 1)
                else none
              else none
      else []

/-- `exact_fit` (T2.1): line whose EMPTY count equals the ships still needed
→ every EMPTY cell of the line becomes SHIP. -/
def exact_fit (b : PuzzleBoard) : List Deduction :=
  (List.range b.dimension).flatMap fun idx =>
    [true, false].flatMap fun is_row =>
      let ships := (count_in_line b idx is_row).1
      let empties := (count_in_line b idx is_row).2.1
      let needed : Int := get_clue b idx is_row - (ships : Int)
      if 0 < needed ∧ (empties : Int) = needed then
        (List.range b.dimension).filterMap fun i =>
          if (lineCell b idx is_row i).state = EMPTY then
            some (if is_row then make_deduction idx i SHIP "T2.1" 2 3
                  else make_deduction i idx SHIP "T2.1" 2 3)
          else none
      else []

/-- `overflow_prevention` (T2.4): EMPTY cell whose row or column already has
ships ≥ clue → SEA. -/
def overflow_prevention (b : PuzzleBoard) : List Deduction :=
  (List.range b.dimension).flatMap fun r =>
    (List.range b.dimension).filterMap fun c =>
      if (getCell b r c).state = EMPTY then
        let ships_in_row := (count_in_line b r true).1
        let ships_in_col := (count_in_line b c false).1
        if b.row_counts.getD r 0 ≤ (ships_in_row : Int) ∨
            b.col_counts.getD c 0 ≤ (ships_in_col : Int) then
          some (make_deduction r c SEA "T2.4" 2 3)
        else none
      else none

/-- Orthogonal neighbor classification of `forced_extension`: ship neighbors,
empty neighbors, and blocked (off-board or SEA) count, in `ORTHOGONAL` order. -/
def classifyOrtho (b : PuzzleBoard) (r c : Nat) :
    List (Nat × Nat) × List (Nat × Nat) × Nat :=
  ORTHOGONAL.foldl
    (fun acc d =>
      let nr : Int := (r : Int) + d.1
      let nc : Int := (c : Int) + d.2
      if ¬ within_bounds b nr nc then (acc.1, acc.2.1, acc.2.2 + 1)
      else if (getCell b nr.toNat nc.toNat).state = SHIP then
        (acc.1 ++ [(nr.toNat, nc.toNat)], acc.2.1, acc.2.2)
      else if (getCell b nr.toNat nc.toNat).state = SEA then
        (acc.1, acc.2.1, acc.2.2 + 1)
      else (acc.1, acc.2.1 ++ [(nr.toNat, nc.toNat)], acc.2.2))
    ([], [], 0)

/-- `forced_extension` (T3.1): a SHIP end piece with exactly one ship
neighbor and one empty neighbor on the same axis extends into the empty；a
SHIP with no ship neighbors, three blocked sides and one empty neighbor
extends into the empty. -/
def forced_extension (b : PuzzleBoard) : List Deduction :=
  (List.range b.dimension).flatMap fun r =>
    (List.range b.dimension).flatMap fun c =>
      if (getCell b r c).state = SHIP then
        let cls := classifyOrtho b r c
        let ded1 :=
          match cls.1, cls.2.1 with
          | [sn], [en] =>
              let ship_dir : Int × Int := ((sn.1 : Int) - r, (sn.2 : Int) - c)
              let empty_dir : Int × Int := ((en.1 : Int) - r, (en.2 : Int) - c)
              if (ship_dir.1 = 0 ∧ empty_dir.1 = 0) ∨
                  (ship_dir.2 = 0 ∧ empty_dir.2 = 0) then
                [make_deduction en.1 en.2 SHIP "T3.1" 3 5]
              else []
          | _, _ => []
        let ded2 :=
          match cls.2.1 with
          | [en] =>
              if cls.1 = [] ∧ cls.2.2 = 3 then
                [make_deduction en.1 en.2 SHIP "T3.1" 3 5]
              else []
          | _ => []
        ded1 ++ ded2
      else []

/-- The contiguous-EMPTY-segment scan of `overlap_analysis`: `mask` is the
remaining emptiness mask (with the sentinel `false` appended), `i` the
current index, `seg_start` the open segment start. -/
def segsAux : List Bool → Nat → Option Nat → List (Nat × Nat)
  | [], _, _ => []
  | bb :: rest, i, none =>
      if bb then segsAux rest (i + 1) (some i) else segsAux rest (i + 1) none
  | bb :: rest, i, some s =>
      if bb then segsAux rest (i + 1) (some s)
      else (s, i - 1) :: segsAux rest (i + 1) none

/-- Emptiness mask of a line. -/
def lineMask (b : PuzzleBoard) (idx : Nat) (is_row : Bool) : List Bool :=
  (List.range b.dimension).map fun i => (lineCell b idx is_row i).state = EMPTY

/-- The `segments` list of `overlap_analysis` for one line (the loop runs to
`dimension` inclusive with `is_empty = False` there, closing any open
segment; hence the appended sentinel). -/
def findSegments (b : PuzzleBoard) (idx : Nat) (is_row : Bool) :
    List (Nat × Nat) :=
  segsAux (lineMask b idx is_row ++ [false]) 0 none

/-- Per-line body of `overlap_analysis` (T3.3). -/
def overlapLine (b : PuzzleBoard) (idx : Nat) (is_row : Bool) : List Deduction :=
  let ships := (count_in_line b idx is_row).1
  let needed : Int := get_clue b idx is_row - (ships : Int)
  if needed ≤ 0 then []
  else
    match findSegments b idx is_row with
    | [(s, e)] =>
        let L : Int := (e : Int) - (s : Int) + 1
        let M : Int := needed
        if 0 < M ∧ M ≤ L ∧ M < L then
          (List.range' (L - M).toNat (M - 1 - (L - M) + 1).toNat).filterMap
            fun seg_i =>
              let i := s + seg_i
              if (lineCell b idx is_row i).state = EMPTY then
                some (if is_row then make_deduction idx i SHIP "T3.3" 3 6
                      else make_deduction i idx SHIP "T3.3" 3 6)
              else none
        else []
    | _ => []

/-- `overlap_analysis` (T3.3): single-empty-segment overlap deduction. -/
def overlap_analysis (b : PuzzleBoard) : List Deduction :=
  (List.range b.dimension).flatMap fun idx =>
    [true, false].flatMap fun is_row => overlapLine b idx is_row

/-- Blocked/open orthogonal classification of `three_blocked_sides`: blocked
directions (off-board or SEA) and open (EMPTY) neighbor coordinates, in
`ORTHOGONAL` order; SHIP neighbors fall in neither list. -/
def classifyBlocked (b : PuzzleBoard) (r c : Nat) :
    List (Int × Int) × List (Nat × Nat) :=
  ORTHOGONAL.foldl
    (fun acc d =>
      let nr : Int := (r : Int) + d.1
      let nc : Int := (c : Int) + d.2
      if ¬ within_bounds b nr nc then (acc.1 ++ [d], acc.2)
      else if (getCell b nr.toNat nc.toNat).state = SEA then (acc.1 ++ [d], acc.2)
      else if (getCell b nr.toNat nc.toNat).state = EMPTY then
        (acc.1, acc.2 ++ [(nr.toNat, nc.toNat)])
      else acc)
    ([], [])

/-- Count of in-bounds orthogonal SHIP neighbors (second loop of
`three_blocked_sides`). -/
def orthoShipCount (b : PuzzleBoard) (r c : Nat) : Nat :=
  (ORTHOGONAL.filter fun d =>
    let nr : Int := (r : Int) + d.1
    let nc : Int := (c : Int) + d.2
    within_bounds b nr nc ∧ (getCell b nr.toNat nc.toNat).state = SHIP).length

/-- `three_blocked_sides` (T3.4): a lone SHIP with three blocked orthogonal
positions and one EMPTY one extends into the EMPTY. -/
def three_blocked_sides (b : PuzzleBoard) : List Deduction :=
  (List.range b.dimension).flatMap fun r =>
    (List.range b.dimension).flatMap fun c =>
      if (getCell b r c).state = SHIP then
        let cls := classifyBlocked b r c
        match cls.2 with
        | [oc] =>
            if cls.1.length = 3 ∧ orthoShipCount b r c = 0 then
              [make_deduction oc.1 oc.2 SHIP "T3.4" 3 5]
            else []
        | _ => []
      else []


/-- The inner `while` of `find_ship_runs` collecting one horizontal run
starting at column `c`, marking cells visited as it goes. -/
def collectH (b : PuzzleBoard) (r c : Nat) (run visited : List (Nat × Nat)) :
    Nat → List (Nat × Nat) × List (Nat × Nat) × Nat
  | 0 => (run, visited, c)
  | fuel + 1 =>
      if c < b.dimension ∧ (getCell b r c).state = SHIP then
        collectH b r (c + 1) (run ++ [(r, c)]) (visited ++ [(r, c)]) fuel
      else (run, visited, c)

/-- The outer horizontal `while c < dimension` of `find_ship_runs` over one
row, threading the found-runs list and the visited set. -/
def hScanRow (b : PuzzleBoard) (r c : Nat)
    (found : List (Nat × List (Nat × Nat))) (visited : List (Nat × Nat)) :
    Nat → List (Nat × List (Nat × Nat)) × List (Nat × Nat)
  | 0 => (found, visited)
  | fuel + 1 =>
      if c < b.dimension then
        if (getCell b r c).state = SHIP ∧ (r, c) ∉ visited then
          if 0 < c ∧ (getCell b r (c - 1)).state ≠ SEA then
            hScanRow b r (c + 1) found visited fuel
          else
            let col := collectH b r c [] visited (b.dimension - c)
            let run := col.1
            let c2 := col.2.2
            if c2 < b.dimension ∧ (getCell b r c2).state ≠ SEA then
              hScanRow b r c2 found col.2.1 fuel
            else
              let found2 :=
                if 1 < run.length then found ++ [(run.length, run)]
                else
                  match run with
                  | [rc] =>
                      if get_state_at b ((rc.1 : Int) - 1) (rc.2 : Int) = SEA ∧
                          get_state_at b ((rc.1 : Int) + 1) (rc.2 : Int) = SEA
                      then found ++ [(1, run)] else found
                  | _ => found
              hScanRow b r c2 found2 col.2.1 fuel
        else hScanRow b r (c + 1) found visited fuel
      else (found, visited)

/-- The inner `while` of the vertical sweep of `find_ship_runs`. -/
def collectV (b : PuzzleBoard) (c r : Nat) (run visited : List (Nat × Nat)) :
    Nat → List (Nat × Nat) × List (Nat × Nat) × Nat
  | 0 => (run, visited, r)
  | fuel + 1 =>
      if r < b.dimension ∧ (getCell b r c).state = SHIP then
        collectV b c (r + 1) (run ++ [(r, c)]) (visited ++ [(r, c)]) fuel
      else (run, visited, r)

/-- The outer vertical `while r < dimension` of `find_ship_runs` over one
column: records only runs of length > 1. -/
def vScanCol (b : PuzzleBoard) (c r : Nat)
    (found : List (Nat × List (Nat × Nat))) (visited : List (Nat × Nat)) :
    Nat → List (Nat × List (Nat × Nat)) × List (Nat × Nat)
  | 0 => (found, visited)
  | fuel + 1 =>
      if r < b.dimension then
        if (getCell b r c).state = SHIP ∧ (r, c) ∉ visited then
          if 0 < r ∧ (getCell b (r - 1) c).state ≠ SEA then
            vScanCol b c (r + 1) found visited fuel
          else
            let col := collectV b c r [] visited (b.dimension - r)
            let run := col.1
            let r2 := col.2.2
            if r2 < b.dimension ∧ (getCell b r2 c).state ≠ SEA then
              vScanCol b c r2 found col.2.1 fuel
            else
              let found2 :=
                if 1 < run.length then found ++ [(run.length, run)] else found
              vScanCol b c r2 found2 col.2.1 fuel
        else vScanCol b c (r + 1) found visited fuel
      else (found, visited)

/-- `find_ship_runs` from `rules.py`: horizontal sweep (recording runs of
length > 1 and horizontally clean submarines), then vertical sweep
(recording runs of length > 1 among unvisited cells). -/
def find_ship_runs (b : PuzzleBoard) : List (Nat × List (Nat × Nat)) :=
  let hor := (List.range b.dimension).foldl
    (fun acc r => hScanRow b r 0 acc.1 acc.2 b.dimension) ([], [])
  ((List.range b.dimension).foldl
    (fun acc c => vScanCol b c 0 acc.1 acc.2 b.dimension) hor).1

/-- `get_remaining_ships`: fleet multiset minus placed complete-run lengths,
removing the first occurrence of each placed size present. -/
def get_remaining_ships (b : PuzzleBoard) : List Nat :=
  ((find_ship_runs b).map Prod.fst).foldl
    (fun remaining size =>
      if size ∈ remaining then remaining.erase size else remaining)
    b.fleet

/-- `get_largest_remaining`: `max(remaining)` when non-empty, else 0. -/
def get_largest_remaining (b : PuzzleBoard) : Nat :=
  (get_remaining_ships b).foldl max 0

/-- `is_fleet_consistent`: no placed complete run exceeds the largest fleet
size and no size is placed more often than the fleet allows. -/
def is_fleet_consistent (b : PuzzleBoard) : Bool :=
  let runs := find_ship_runs b
  if runs = [] then true
  else
    let placed_sizes := runs.map Prod.fst
    let max_fleet_size := b.fleet.foldl max 0
    placed_sizes.all (fun size => size ≤ max_fleet_size) &&
    placed_sizes.all (fun size => placed_sizes.count size ≤ b.fleet.count size)

/-- The gap scan of `gap_analysis` along one line: positions to visit (with
the past-the-end sentinel position reading SEA), open gap start, emitted
deductions. -/
def gapScanAux (b : PuzzleBoard) (idx : Nat) (is_row : Bool) (smallest : Nat) :
    List Nat → Option Nat → List Deduction
  | [], _ => []
  | i :: rest, gap_start =>
      let state := if i < b.dimension then (lineCell b idx is_row i).state else SEA
      if state = EMPTY then
        gapScanAux b idx is_row smallest rest
          (match gap_start with | none => some i | some s => some s)
      else
        match gap_start with
        | none => gapScanAux b idx is_row smallest rest none
        | some s =>
            let gap_len := i - s
            let left_blocked := s = 0 ∨ (lineCell b idx is_row (s - 1)).state = SEA
            let right_blocked := state = SEA
            (if left_blocked ∧ right_blocked ∧ gap_len < smallest then
              (List.range' s gap_len).map fun gc =>
                if is_row then make_deduction idx gc SEA "T4.1" 4 7
                else make_deduction gc idx SEA "T4.1" 4 7
             else []) ++ gapScanAux b idx is_row smallest rest none

/-- `gap_analysis` (T4.1): gaps (maximal EMPTY runs bounded by SEA/edge)
shorter than the smallest remaining ship are filled with SEA. -/
def gap_analysis (b : PuzzleBoard) : List Deduction :=
  match get_remaining_ships b with
  | [] => []
  | x :: xs =>
      let smallest := xs.foldl min x
      ((List.range b.dimension).flatMap fun r =>
        gapScanAux b r true smallest (List.range (b.dimension + 1)) none) ++
      ((List.range b.dimension).flatMap fun c =>
        gapScanAux b c false smallest (List.range (b.dimension + 1)) none)

/-- Fully placed ship lengths, `set(board.fleet) - set(remaining)`.  CPython
iterates a set of small ints in ascending numeric order (identity hashing),
so the embedded iteration is ascending over the distinct fleet sizes. -/
def placedLengths (b : PuzzleBoard) : List Nat :=
  let remaining := get_remaining_ships b
  ((List.range (b.fleet.foldl max 0 + 1)).filter fun v =>
    v ∈ b.fleet ∧ v ∉ remaining)

/-- The per-line run scan of `fleet_exhaustion` for one exhausted `length`:
positions (with past-the-end sentinel reading SEA), open run start and run
length so far. -/
def feScanAux (b : PuzzleBoard) (idx : Nat) (is_row : Bool) (length : Nat) :
    List Nat → Option Nat → Nat → List Deduction
  | [], _, _ => []
  | i :: rest, run_start, run_len =>
      let state := if i < b.dimension then (lineCell b idx is_row i).state else SEA
      if state = SHIP then
        feScanAux b idx is_row length rest
          (match run_start with | none => some i | some s => some s) (run_len + 1)
      else
        let deds :=
          match run_start with
          | none => []
          | some s =>
              if 0 < run_len then
                let left_open := 0 < s ∧ (lineCell b idx is_row (s - 1)).state = EMPTY
                let right_open := i < b.dimension ∧ state = EMPTY
                if run_len < length then
                  (if left_open ∧ run_len + 1 = length then
                    [if is_row then make_deduction idx (s - 1) SEA "T4.2" 4 7
                     else make_deduction (s - 1) idx SEA "T4.2" 4 7]
                   else []) ++
                  (if right_open ∧ run_len + 1 = length then
                    [if is_row then make_deduction idx i SEA "T4.2" 4 7
                     else make_deduction i idx SEA "T4.2" 4 7]
                   else [])
                else []
              else []
        deds ++ feScanAux b idx is_row length rest none 0

/-- `fleet_exhaustion` (T4.2): for each fully placed length, block partial
runs one short of it from growing to that length. -/
def fleet_exhaustion (b : PuzzleBoard) : List Deduction :=
  (placedLengths b).flatMap fun length =>
    ((List.range b.dimension).flatMap fun r =>
      feScanAux b r true length (List.range (b.dimension + 1)) none 0) ++
    ((List.range b.dimension).flatMap fun c =>
      feScanAux b c false length (List.range (b.dimension + 1)) none 0)

/-- The per-line run scan of `cap_ship`: runs of exactly the largest
remaining size get SEA caps at both EMPTY ends. -/
def capScanAux (b : PuzzleBoard) (idx : Nat) (is_row : Bool) (max_size : Nat) :
    List Nat → Option Nat → Nat → List Deduction
  | [], _, _ => []
  | i :: rest, run_start, run_len =>
      let state := if i = b.dimension then SEA else (lineCell b idx is_row i).state
      if state = SHIP then
        capScanAux b idx is_row max_size rest
          (match run_start with | none => some i | some s => some s) (run_len + 1)
      else
        let deds :=
          if run_len = max_size then
            match run_start with
            | none => []
            | some s =>
                (if 0 < s ∧ (lineCell b idx is_row (s - 1)).state = EMPTY then
                  [if is_row then make_deduction idx (s - 1) SEA "T4.3" 4 7
                   else make_deduction (s - 1) idx SEA "T4.3" 4 7]
                 else []) ++
                (let end_i := s + run_len
                 if end_i < b.dimension ∧
                     (lineCell b idx is_row end_i).state = EMPTY then
                  [if is_row then make_deduction idx end_i SEA "T4.3" 4 7
                   else make_deduction end_i idx SEA "T4.3" 4 7]
                 else [])
          else []
        deds ++ capScanAux b idx is_row max_size rest none 0

/-- `cap_ship` (T4.3): cap both EMPTY ends of runs at the largest remaining
ship size. -/
def cap_ship (b : PuzzleBoard) : List Deduction :=
  let max_size := get_largest_remaining b
  if max_size = 0 then []
  else
    ((List.range b.dimension).flatMap fun r =>
      capScanAux b r true max_size (List.range (b.dimension + 1)) none 0) ++
    ((List.range b.dimension).flatMap fun c =>
      capScanAux b c false max_size (List.range (b.dimension + 1)) none 0)

/-- Contiguous SHIP cells directly below position `i` of a line (the
descending `for` of `prevent_long_join`). -/
def countShipsDown (b : PuzzleBoard) (idx : Nat) (is_row : Bool) : Nat → Nat
  | 0 => 0
  | j + 1 =>
      if (lineCell b idx is_row j).state = SHIP then
        countShipsDown b idx is_row j + 1
      else 0

/-- Contiguous SHIP cells from position `i` upward (the ascending `for` of
`prevent_long_join`), with fuel bounding the scan at the dimension. -/
def countShipsUp (b : PuzzleBoard) (idx : Nat) (is_row : Bool) (i : Nat) :
    Nat → Nat
  | 0 => 0
  | fuel + 1 =>
      if i < b.dimension ∧ (lineCell b idx is_row i).state = SHIP then
        countShipsUp b idx is_row (i + 1) fuel + 1
      else 0

/-- `prevent_long_join` (T4.4): an EMPTY cell joining ship segments into a
run longer than the largest remaining ship becomes SEA. -/
def prevent_long_join (b : PuzzleBoard) : List Deduction :=
  let max_size := get_largest_remaining b
  if max_size = 0 then []
  else
    (List.range b.dimension).flatMap fun r =>
      (List.range b.dimension).filterMap fun c =>
        if (getCell b r c).state = EMPTY then
          let beforeH := countShipsDown b r true c
          let afterH := countShipsUp b r true (c + 1) b.dimension
          if max_size < beforeH + afterH + 1 then
            some (make_deduction r c SEA "T4.4" 4 8)
          else
            let beforeV := countShipsDown b c false r
            let afterV := countShipsUp b c false (r + 1) b.dimension
            if max_size < beforeV + afterV + 1 then
              some (make_deduction r c SEA "T4.4" 4 8)
            else none
        else none


/-- Last-write-wins association-list lookup, matching Python `dict`
assignment followed by `[]` access / `in` tests. -/
def lookupLast : List ((Nat × Nat) × CellState) → (Nat × Nat) → Option CellState
  | [], _ => none
  | e :: rest, k =>
      match lookupLast rest k with
      | some v => some v
      | none => if e.1 = k then some e.2 else none

/-- `_IncrementalPropagator` state: the (aliased) board, dimension, per-line
counters and the hint-constraint index. -/
structure PropState where
  board : PuzzleBoard
  dim : Nat
  row_ships : List Int
  row_empties : List Int
  col_ships : List Int
  col_empties : List Int
  hint_constraints : List ((Nat × Nat) × CellState)
deriving DecidableEq, Repr

/-- Add `d` to entry `i` of a counter list. -/
def bumpAt (l : List Int) (i : Nat) (d : Int) : List Int :=
  l.set i (l.getD i 0 + d)

/-- `_IncrementalPropagator.__init__`: counters are per-line SHIP/EMPTY
counts; the constraint index collects, in row-major hint order, each
in-bounds shape entry of every SHIP-state hint. -/
def initProp (b : PuzzleBoard) : PropState :=
  { board := b
    dim := b.dimension
    row_ships := (List.range b.dimension).map fun r =>
      ((count_in_line b r true).1 : Int)
    row_empties := (List.range b.dimension).map fun r =>
      ((count_in_line b r true).2.1 : Int)
    col_ships := (List.range b.dimension).map fun c =>
      ((count_in_line b c false).1 : Int)
    col_empties := (List.range b.dimension).map fun c =>
      ((count_in_line b c false).2.1 : Int)
    hint_constraints :=
      (List.range b.dimension).flatMap fun r =>
        (List.range b.dimension).flatMap fun c =>
          let cell := getCell b r c
          if cell.is_hint ∧ cell.state = SHIP then
            match cell.hint_shape with
            | none => []
            | some shape =>
                shape.filterMap fun entry =>
                  let nr : Int := (r : Int) + entry.1.1
                  let nc : Int := (c : Int) + entry.1.2
                  if 0 ≤ nr ∧ nr < (b.dimension : Int) ∧
                      0 ≤ nc ∧ nc < (b.dimension : Int) then
                    some ((nr.toNat, nc.toNat), entry.2)
                  else none
          else [] }

/-- Propagator write of SEA into an EMPTY cell with its counter updates. -/
def propSetSea (st : PropState) (rr cc : Nat) : PropState :=
  { st with
      board := setState st.board rr cc SEA
      row_empties := bumpAt st.row_empties rr (-1)
      col_empties := bumpAt st.col_empties cc (-1) }

/-- Propagator write of SHIP into an EMPTY cell with its counter updates. -/
def propSetShip (st : PropState) (rr cc : Nat) : PropState :=
  { st with
      board := setState st.board rr cc SHIP
      row_empties := bumpAt st.row_empties rr (-1)
      col_empties := bumpAt st.col_empties cc (-1)
      row_ships := bumpAt st.row_ships rr 1
      col_ships := bumpAt st.col_ships cc 1 }

/-- Is some in-bounds diagonal neighbor of `(rr, cc)` a SHIP? (the diagonal
conflict scan of the exact-fill branch). -/
def anyDiagShip (st : PropState) (rr cc : Nat) : Bool :=
  DIAGONAL.any fun d =>
    let nr : Int := (rr : Int) + d.1
    let nc : Int := (cc : Int) + d.2
    0 ≤ nr ∧ nr < (st.dim : Int) ∧ 0 ≤ nc ∧ nc < (st.dim : Int) ∧
      (getCell st.board nr.toNat nc.toNat).state = SHIP

/-- Diagonal SEA cascade around a newly placed ship at `(rr, cc)`: each
in-bounds EMPTY diagonal becomes SEA and its lines are enqueued; a diagonal
hint-pinned to SHIP is a contradiction that stops the cascade. -/
def diagCascade (st : PropState) (dirty : List (Bool × Nat)) (rr cc : Nat) :
    List (Int × Int) → PropState × List (Bool × Nat) × Bool
  | [] => (st, dirty, false)
  | d :: rest =>
      let nr : Int := (rr : Int) + d.1
      let nc : Int := (cc : Int) + d.2
      if 0 ≤ nr ∧ nr < (st.dim : Int) ∧ 0 ≤ nc ∧ nc < (st.dim : Int) then
        if (getCell st.board nr.toNat nc.toNat).state = EMPTY then
          match lookupLast st.hint_constraints (nr.toNat, nc.toNat) with
          | some v =>
              if v = SEA then
                diagCascade (propSetSea st nr.toNat nc.toNat)
                  (dirty ++ [(true, nr.toNat), (false, nc.toNat)]) rr cc rest
              else (st, dirty, true)
          | none =>
              diagCascade (propSetSea st nr.toNat nc.toNat)
                (dirty ++ [(true, nr.toNat), (false, nc.toNat)]) rr cc rest
        else diagCascade st dirty rr cc rest
      else diagCascade st dirty rr cc rest

/-- The satisfied-line SEA fill of the propagation loop: every EMPTY cell of
line `(is_row, idx)` becomes SEA; a cell hint-pinned to SHIP is a
contradiction. -/
def fillSeaLoop (st : PropState) (dirty : List (Bool × Nat))
    (is_row : Bool) (idx : Nat) : List Nat → PropState × List (Bool × Nat) × Bool
  | [] => (st, dirty, false)
  | i :: rest =>
      let rr := if is_row then idx else i
      let cc := if is_row then i else idx
      if (getCell st.board rr cc).state = EMPTY then
        match lookupLast st.hint_constraints (rr, cc) with
        | some v =>
            if v = SEA then
              fillSeaLoop (propSetSea st rr cc)
                (dirty ++ [(true, rr), (false, cc)]) is_row idx rest
            else (st, dirty, true)
        | none =>
            fillSeaLoop (propSetSea st rr cc)
              (dirty ++ [(true, rr), (false, cc)]) is_row idx rest
      else fillSeaLoop st dirty is_row idx rest

/-- The exact-fit SHIP fill of the propagation loop.  The source only
re-checks a cascade-raised contradiction at the next EMPTY cell (the
`break` after the diagonal conflict scan), so the carried flag `contr`
stops the loop there without further mutation. -/
def fillShipLoop (st : PropState) (dirty : List (Bool × Nat))
    (is_row : Bool) (idx : Nat) (contr : Bool) :
    List Nat → PropState × List (Bool × Nat) × Bool
  | [] => (st, dirty, contr)
  | i :: rest =>
      let rr := if is_row then idx else i
      let cc := if is_row then i else idx
      if (getCell st.board rr cc).state = EMPTY then
        if contr ∨ anyDiagShip st rr cc then (st, dirty, true)
        else
          match lookupLast st.hint_constraints (rr, cc) with
          | some v =>
              if v = SHIP then
                let st2 := propSetShip st rr cc
                let casc := diagCascade st2
                  (dirty ++ [(true, rr), (false, cc)]) rr cc DIAGONAL
                fillShipLoop casc.1 casc.2.1 is_row idx casc.2.2 rest
              else (st, dirty, true)
          | none =>
              let st2 := propSetShip st rr cc
              let casc := diagCascade st2
                (dirty ++ [(true, rr), (false, cc)]) rr cc DIAGONAL
              fillShipLoop casc.1 casc.2.1 is_row idx casc.2.2 rest
      else fillShipLoop st dirty is_row idx contr rest

/-- The dirty-line propagation `while` loop, shared verbatim by `test_ship`
and `test_water` in the source; `fuel` is the remaining step budget of the
`steps < 200` cap (a capped-out non-empty queue reports no contradiction). -/
def propLoop (st : PropState) (dirty : List (Bool × Nat)) :
    Nat → PropState × Bool
  | 0 => (st, false)
  | fuel + 1 =>
      match dirty with
      | [] => (st, false)
      | (is_row, idx) :: rest =>
          let ships := (if is_row then st.row_ships else st.col_ships).getD idx 0
          let empties :=
            (if is_row then st.row_empties else st.col_empties).getD idx 0
          let clue := if is_row then st.board.row_counts.getD idx 0
                      else st.board.col_counts.getD idx 0
          let needed := clue - ships
          if clue < ships ∨ ships + empties < clue then (st, true)
          else if ships = clue ∧ 0 < empties then
            let fill := fillSeaLoop st rest is_row idx (List.range st.dim)
            if fill.2.2 then (fill.1, true)
            else propLoop fill.1 fill.2.1 fuel
          else if 0 < needed ∧ empties = needed then
            let fill := fillShipLoop st rest is_row idx false (List.range st.dim)
            if fill.2.2 then (fill.1, true)
            else propLoop fill.1 fill.2.1 fuel
          else propLoop st rest fuel

/-- Body of `test_ship` after the hint-pin early return: trial SHIP
placement, initial diagonal SEA cascade, propagation, fleet check. -/
def test_ship_body (st : PropState) (r c : Nat) : Bool × PropState :=
  let st1 := propSetShip st r c
  let casc := diagCascade st1 [(true, r), (false, c)] r c DIAGONAL
  let res := if casc.2.2 then (casc.1, true) else propLoop casc.1 casc.2.1 200
  if res.2 then (true, res.1)
  else if ¬ is_fleet_consistent res.1.board then (true, res.1)
  else (false, res.1)

/-- `_IncrementalPropagator.test_ship`: True iff placing SHIP at `(r, c)`
forces a contradiction.  A hint constraint pinning `(r, c)` to a non-SHIP
value is an immediate contradiction, before any mutation. -/
def test_ship (st : PropState) (r c : Nat) : Bool × PropState :=
  match lookupLast st.hint_constraints (r, c) with
  | some v => if v = SHIP then test_ship_body st r c else (true, st)
  | none => test_ship_body st r c

/-- Body of `test_water` after the hint-pin early return: trial SEA
placement, propagation, fleet check. -/
def test_water_body (st : PropState) (r c : Nat) : Bool × PropState :=
  let st1 := propSetSea st r c
  let res := propLoop st1 [(true, r), (false, c)] 200
  if res.2 then (true, res.1)
  else if ¬ is_fleet_consistent res.1.board then (true, res.1)
  else (false, res.1)

/-- `_IncrementalPropagator.test_water`: True iff placing SEA at `(r, c)`
forces a contradiction.  A hint constraint pinning `(r, c)` to a non-SEA
value is an immediate contradiction, before any mutation. -/
def test_water (st : PropState) (r c : Nat) : Bool × PropState :=
  match lookupLast st.hint_constraints (r, c) with
  | some v => if v = SEA then test_water_body st r c else (true, st)
  | none => test_water_body st r c

/-- The EMPTY-cell worklist of the Tier-5 rules, computed before trials. -/
def empties_list (b : PuzzleBoard) : List (Nat × Nat) :=
  (List.range b.dimension).flatMap fun r =>
    (List.range b.dimension).filterMap fun c =>
      if (getCell b r c).state = EMPTY then some (r, c) else none

/-- Trial loop of `naked_water` (the `USE_INCREMENTAL_T5` branch the source
enables): snapshot, trial, restore, re-init the propagator. -/
def nwLoop (prop : PropState) (acc : List Deduction) :
    List (Nat × Nat) → List Deduction × PuzzleBoard
  | [] => (acc, prop.board)
  | rc :: rest =>
      let snapshot := get_snapshot prop.board
      let res := test_ship prop rc.1 rc.2
      let acc2 := if res.1 then
          acc ++ [make_deduction rc.1 rc.2 SEA "T5.1" 5 9]
        else acc
      let b2 := restore_snapshot res.2.board snapshot
      nwLoop (initProp b2) acc2 rest

/-- `naked_water` (T5.1): an EMPTY cell whose trial SHIP placement forces a
contradiction must be SEA.  Returns the deductions together with the board
the driver is left aliasing afterwards. -/
def naked_water (b : PuzzleBoard) : List Deduction × PuzzleBoard :=
  nwLoop (initProp b) [] (empties_list b)

/-- Trial loop of `naked_ship` (the `USE_INCREMENTAL_T5` branch). -/
def nsLoop (prop : PropState) (acc : List Deduction) :
    List (Nat × Nat) → List Deduction × PuzzleBoard
  | [] => (acc, prop.board)
  | rc :: rest =>
      let snapshot := get_snapshot prop.board
      let res := test_water prop rc.1 rc.2
      let acc2 := if res.1 then
          acc ++ [make_deduction rc.1 rc.2 SHIP "T5.2" 5 9]
        else acc
      let b2 := restore_snapshot res.2.board snapshot
      nsLoop (initProp b2) acc2 rest

/-- `naked_ship` (T5.2): an EMPTY cell whose trial SEA placement forces a
contradiction must be SHIP. -/
def naked_ship (b : PuzzleBoard) : List Deduction × PuzzleBoard :=
  nsLoop (initProp b) [] (empties_list b)

/-- Rule functions uniformly return the proposed deductions together with
the board as the driver sees it afterwards; the Tier 1-4 rules are pure. -/
def pureRule (f : PuzzleBoard → List Deduction) :
    PuzzleBoard → List Deduction × PuzzleBoard :=
  fun b => (f b, b)

/-- The `RULES` registry: tier number to the registered
(technique, difficulty, function) triples, in registration order. -/
def RULES : Nat → List (String × Nat × (PuzzleBoard → List Deduction × PuzzleBoard))
  | 1 => [("T1.1", 1, pureRule zero_clue), ("T1.2", 1, pureRule satisfied_clue),
          ("T1.3", 1, pureRule diagonal_water),
          ("T1.4", 1, pureRule hint_shape_deduction)]
  | 2 => [("T2.1", 3, pureRule exact_fit), ("T2.4", 3, pureRule overflow_prevention)]
  | 3 => [("T3.1", 5, pureRule forced_extension), ("T3.3", 6, pureRule overlap_analysis),
          ("T3.4", 5, pureRule three_blocked_sides)]
  | 4 => [("T4.1", 7, pureRule gap_analysis), ("T4.2", 7, pureRule fleet_exhaustion),
          ("T4.3", 7, pureRule cap_ship), ("T4.4", 8, pureRule prevent_long_join)]
  | 5 => [("T5.1", 9, naked_water), ("T5.2", 9, naked_ship)]
  | _ => []


/-- First-match association-list lookup for `hint_shape` dicts (`dict.get`;
parser-built shape dicts have unique keys). -/
def lookupShape : List ((Int × Int) × CellState) → (Int × Int) → Option CellState
  | [], _ => none
  | e :: rest, k => if e.1 = k then some e.2 else lookupShape rest k

/-- Does `(r, c)` conflict for SHIP placement: diagonally adjacent to another
batch SHIP proposal, or to an existing SHIP on the board
(`_filter_diagonal_conflicts`'s conflict set, membership view). -/
def dedConflicts (b : PuzzleBoard) (ship_coords : List (Nat × Nat))
    (p : Nat × Nat) : Bool :=
  (ship_coords.any fun q =>
    ((p.1 : Int) - (q.1 : Int)).natAbs = 1 ∧
    ((p.2 : Int) - (q.2 : Int)).natAbs = 1) ||
  (DIAGONAL.any fun d =>
    let nr : Int := (p.1 : Int) + d.1
    let nc : Int := (p.2 : Int) + d.2
    within_bounds b nr nc ∧ (getCell b nr.toNat nc.toNat).state = SHIP)

/-- `TieredSolver._filter_diagonal_conflicts`: drop SHIP proposals that
diagonally touch another batch SHIP proposal or an existing board SHIP. -/
def filter_diagonal_conflicts (b : PuzzleBoard) (deds : List Deduction) :
    List Deduction :=
  let ship_coords := (deds.filter fun d => d.value = SHIP).map fun d =>
    (d.row, d.col)
  if ship_coords = [] then deds
  else deds.filter fun d =>
    d.value ≠ SHIP ∨ ¬ dedConflicts b ship_coords (d.row, d.col) = true

/-- `TieredSolver._is_consistent`: line ship counts within clues, no
diagonal SHIP contact, and SHIP-state hint shapes respected by non-EMPTY
orthogonal neighbors. -/
def is_consistent (b : PuzzleBoard) : Bool :=
  ((List.range b.dimension).all fun idx =>
    ((count_in_line b idx true).1 : Int) ≤ b.row_counts.getD idx 0 ∧
    ((count_in_line b idx false).1 : Int) ≤ b.col_counts.getD idx 0) &&
  ((List.range b.dimension).all fun r =>
    (List.range b.dimension).all fun c =>
      if (getCell b r c).state = SHIP then
        DIAGONAL.all fun d =>
          let nr : Int := (r : Int) + d.1
          let nc : Int := (c : Int) + d.2
          if within_bounds b nr nc ∧ (getCell b nr.toNat nc.toNat).state = SHIP
          then false else true
      else true) &&
  ((List.range b.dimension).all fun r =>
    (List.range b.dimension).all fun c =>
      let cell := getCell b r c
      if cell.is_hint ∧ cell.state = SHIP then
        match cell.hint_shape with
        | none => true
        | some shape =>
            [((0 : Int), (1 : Int)), (0, -1), (1, 0), (-1, 0)].all fun d =>
              let nr : Int := (r : Int) + d.1
              let nc : Int := (c : Int) + d.2
              if within_bounds b nr nc then
                let placed := (getCell b nr.toNat nc.toNat).state
                if placed = EMPTY then true
                else
                  match lookupShape shape d with
                  | none => true
                  | some expected => placed = expected
              else true
      else true)

/-- `TieredSolver._clues_satisfied`: every row and column ship count equals
its clue exactly. -/
def clues_satisfied (b : PuzzleBoard) : Bool :=
  (List.range b.dimension).all fun idx =>
    ((count_in_line b idx true).1 : Int) = b.row_counts.getD idx 0 ∧
    ((count_in_line b idx false).1 : Int) = b.col_counts.getD idx 0

/-- The rule loop of `TieredSolver._apply_tier`: first rule whose batch
survives the already-applied and diagonal-conflict filters wins; the board
is threaded through the rule calls (Tier 5 rules alias and restore it). -/
def applyTierRules (b : PuzzleBoard) (applied : List (Nat × Nat × CellState)) :
    List (String × Nat × (PuzzleBoard → List Deduction × PuzzleBoard)) →
    List Deduction × PuzzleBoard
  | [] => ([], b)
  | rule :: rest =>
      let res := rule.2.2 b
      let new1 := res.1.filter fun d => (d.row, d.col, d.value) ∉ applied
      let new2 := filter_diagonal_conflicts res.2 new1
      if new2 = [] then applyTierRules res.2 applied rest
      else (new2, res.2)

/-- The `for tier in [1..5]` scan of `TieredSolver.solve`: the first tier
with a surviving batch wins; returns (tier, batch, T5 empty-before count)
and the threaded board. -/
def tryTiers (b : PuzzleBoard) (applied : List (Nat × Nat × CellState)) :
    List Nat → Option (Nat × List Deduction × Nat) × PuzzleBoard
  | [] => (none, b)
  | t :: rest =>
      let empty_before := if t = 5 then count_empty b else 0
      let res := applyTierRules b applied (RULES t)
      if res.1 = [] then tryTiers res.2 applied rest
      else (some (t, res.1, empty_before), res.2)

/-- Mutable state of `TieredSolver`: board, per-tier usage counts
(tiers 1-5), the applied deduction trail, T5 details
(empty-before, cells-filled), the applied-cells deduplication set, and the
T3+ difficulty bookkeeping. -/
structure SolverState where
  board : PuzzleBoard
  tier_usage : List Nat
  techniques_used : List Deduction
  t5_details : List (Nat × Nat)
  applied_cells : List (Nat × Nat × CellState)
  t3plus_remaining : List Nat
  last_t3plus : Int
deriving DecidableEq, Repr

/-- `TieredSolver.__init__` state for a given board. -/
def initSolver (b : PuzzleBoard) : SolverState :=
  ⟨b, [0, 0, 0, 0, 0], [], [], [], [], -1⟩

/-- `TieredSolver._apply_deductions`: write every proposed value and record
it in the applied set. -/
def applyDeductions (st : SolverState) (deds : List Deduction) : SolverState :=
  deds.foldl
    (fun s d =>
      { s with
          board := setState s.board d.row d.col d.value
          applied_cells := s.applied_cells ++ [(d.row, d.col, d.value)] })
    st

/-- The `while` loop of `TieredSolver.solve` with the 1000-iteration cap as
fuel; returns the final solver state and the `inconsistent` flag. -/
def solveLoop (st : SolverState) : Nat → SolverState × Bool
  | 0 => (st, false)
  | fuel + 1 =>
      if is_solved st.board then (st, false)
      else
        let tr := tryTiers st.board st.applied_cells [1, 2, 3, 4, 5]
        match tr.1 with
        | none => ({ st with board := tr.2 }, false)
        | some tdb =>
            let tier := tdb.1
            let deductions := tdb.2.1
            let empty_before := tdb.2.2
            let st1 := { st with board := tr.2 }
            let st2 :=
              if 3 ≤ tier then
                let current_remaining := count_empty st1.board
                let st2a :=
                  if (current_remaining : Int) < st1.last_t3plus - 1 ∨
                      st1.last_t3plus = -1 then
                    { st1 with t3plus_remaining :=
                        st1.t3plus_remaining ++ [current_remaining] }
                  else st1
                { st2a with last_t3plus := (current_remaining : Int) }
              else st1
            let st3 := applyDeductions st2 deductions
            if ¬ is_consistent st3.board then (st3, true)
            else
              let st4 := { st3 with
                tier_usage := st3.tier_usage.set (tier - 1)
                  (st3.tier_usage.getD (tier - 1) 0 + 1)
                techniques_used := st3.techniques_used ++ deductions }
              let st5 :=
                if tier = 5 then
                  { st4 with t5_details := st4.t5_details ++
                      [(empty_before, empty_before - count_empty st4.board)] }
                else st4
              solveLoop st5 fuel

/-- `TieredSolver._compute_score`, over exact rationals (the source uses
floats; the value is advisory metadata). -/
def compute_score (t3plus : List Nat) : ℚ :=
  if t3plus = [] then 0
  else
    let raw : ℚ := (t3plus.enum.map fun p => (p.2 : ℚ) / ((p.1 : ℚ) + 1)).sum
    min 100 (raw * (9 / 5))

/-- `TieredSolver._max_tier`: highest tier with non-zero usage. -/
def max_tier (usage : List Nat) : Nat :=
  if 0 < usage.getD 4 0 then 5
  else if 0 < usage.getD 3 0 then 4
  else if 0 < usage.getD 2 0 then 3
  else if 0 < usage.getD 1 0 then 2
  else if 0 < usage.getD 0 0 then 1
  else 0

/-- `SolveResult` from `solver.py` (`tier_usage` as the list of counts for
tiers 1-5, `t5_details` as (empty-before, cells-filled) pairs). -/
structure SolveResult where
  solved : Bool
  stuck : Bool
  valid : Bool
  tier_usage : List Nat
  techniques_used : List Deduction
  difficulty_score : ℚ
  max_tier_required : Nat
  t5_details : List (Nat × Nat)
  t3plus_remaining : List Nat
deriving DecidableEq, Repr

/-- `TieredSolver.solve`: run the loop, then assemble the outcome flags and
the result record; also returns the final (mutated) board. -/
def solve (b : PuzzleBoard) : SolveResult × PuzzleBoard :=
  let res := solveLoop (initSolver b) 1000
  let st := res.1
  let inconsistent := res.2
  let no_empty := is_solved st.board
  let cs := if no_empty then clues_satisfied st.board else false
  let solved := no_empty && !inconsistent && cs
  let valid := solved && matches_solution st.board
  (⟨solved, !solved, valid, st.tier_usage, st.techniques_used,
    compute_score st.t3plus_remaining, max_tier st.tier_usage,
    st.t5_details, st.t3plus_remaining⟩, st.board)


/-- An all-EMPTY `dim × dim` board with the given clues and the standard
fleet (`PuzzleBoard.__post_init__` grid construction). -/
def mkBoard (dim : Nat) (rows cols : List Int) : PuzzleBoard :=
  ⟨dim,
   (List.range dim).map fun r =>
     (List.range dim).map fun c => ⟨r, c, EMPTY, EMPTY, false, none⟩,
   rows, cols, [4, 3, 3, 2, 2, 2, 1, 1, 1, 1]⟩

/-- Replace a whole cell (used to seed hints in concrete test boards). -/
def setCell (b : PuzzleBoard) (r c : Nat) (cell : GridCell) : PuzzleBoard :=
  { b with cells := b.cells.set r ((b.cells.getD r []).set c cell) }

/-- Set every cell state of a board to SEA. -/
def fillAllSea (b : PuzzleBoard) : PuzzleBoard :=
  (List.range b.dimension).foldl
    (fun bb r =>
      (List.range b.dimension).foldl (fun bb2 c => setState bb2 r c SEA) bb)
    b

/-- Ten zero clues. -/
def zeros10 : List Int := [0, 0, 0, 0, 0, 0, 0, 0, 0, 0]

/-- The all-zero-clue hint-free 10 by 10 board of the zero-clue scenario. -/
def boardZero : PuzzleBoard := mkBoard 10 zeros10 zeros10

/-- A fully filled board: SHIP at (0,0) and (1,1), SEA elsewhere, clues
exactly matching the ship counts — but the two ships touch diagonally. -/
def boardDiagSolved : PuzzleBoard :=
  setState (setState (fillAllSea (mkBoard 10
    [1, 1, 0, 0, 0, 0, 0, 0, 0, 0] [1, 1, 0, 0, 0, 0, 0, 0, 0, 0]))
    0 0 SHIP) 1 1 SHIP

/-- A pre-solved all-SEA board with zero clues and no reference solution
(all `solution` fields keep the EMPTY default). -/
def boardSeaNoRef : PuzzleBoard := fillAllSea (mkBoard 10 zeros10 zeros10)

/-- Board with one vertical complete ship: SHIP at (0,0) and (1,0), SEA at
(2,0), everything else EMPTY. -/
def boardVerticalShip : PuzzleBoard :=
  setState (setState (setState (mkBoard 10 zeros10 zeros10)
    0 0 SHIP) 1 0 SHIP) 2 0 SEA

/-- Board whose row 0 clue (2) cannot be satisfied once the zero column
clues force every cell to SEA. -/
def boardRowTwo : PuzzleBoard :=
  mkBoard 10 [2, 0, 0, 0, 0, 0, 0, 0, 0, 0] zeros10

/-- A 10 by 10 board whose cell (0,0) is a hint left in EMPTY state (the
parser accepts hint value 0 / "empty"). -/
def boardEmptyHint : PuzzleBoard :=
  setCell (mkBoard 10 zeros10 zeros10) 0 0 ⟨0, 0, EMPTY, EMPTY, true, none⟩

/-- A 2 by 2 board, clues all 1, whose cell (0,0) is a hint left in EMPTY
state; tiers 1-4 are silent on it and Tier 5 fires. -/
def boardHintT5 : PuzzleBoard :=
  setCell (mkBoard 2 [1, 1] [1, 1]) 0 0 ⟨0, 0, EMPTY, EMPTY, true, none⟩

/-- A 2 by 2 board with a SHIP hint at (0,0) whose shape map pins south to
SEA and east to SHIP (a "left" hint end). -/
def boardPinned : PuzzleBoard :=
  setCell (mkBoard 2 [2, 0] [1, 1]) 0 0
    ⟨0, 0, SHIP, SHIP, true, some [((1, 0), SEA), ((0, 1), SHIP)]⟩

/-- A 2 by 2 well-formed board with resolved hints: a SEA hint at (0,0). -/
def boardResolved : PuzzleBoard :=
  setCell (mkBoard 2 [1, 1] [1, 1]) 0 0 ⟨0, 0, SEA, SEA, true, none⟩


/-- Invariant (spec section 3, upper half of the line constraint): every row
and column has ship count at most its clue. -/
def ShipCountsWithinClues (b : PuzzleBoard) : Prop :=
  ∀ idx, idx < b.dimension →
    ((count_in_line b idx true).1 : Int) ≤ b.row_counts.getD idx 0 ∧
    ((count_in_line b idx false).1 : Int) ≤ b.col_counts.getD idx 0

/-- Invariant (spec section 3, lower half of the line constraint): every row
and column has ship count plus empty count at least its clue. -/
def LineLowerBounds (b : PuzzleBoard) : Prop :=
  ∀ idx, idx < b.dimension →
    b.row_counts.getD idx 0 ≤
      ((count_in_line b idx true).1 : Int) + ((count_in_line b idx true).2.1 : Int) ∧
    b.col_counts.getD idx 0 ≤
      ((count_in_line b idx false).1 : Int) + ((count_in_line b idx false).2.1 : Int)

/-- Invariant (spec section 3): no two SHIP cells touch diagonally. -/
def NoDiagonalContact (b : PuzzleBoard) : Prop :=
  ∀ r c, r < b.dimension → c < b.dimension → (getCell b r c).state = SHIP →
    ∀ d ∈ DIAGONAL, within_bounds b ((r : Int) + d.1) ((c : Int) + d.2) = true →
      (getCell b ((r : Int) + d.1).toNat ((c : Int) + d.2).toNat).state ≠ SHIP

/-- Invariant (spec section 3): every SHIP-state hint cell with a shape map
has all its non-EMPTY in-bounds orthogonal neighbors agreeing with the map. -/
def HintShapesRespected (b : PuzzleBoard) : Prop :=
  ∀ r c, r < b.dimension → c < b.dimension →
    (getCell b r c).is_hint = true → (getCell b r c).state = SHIP →
    ∀ shape, (getCell b r c).hint_shape = some shape →
    ∀ d ∈ [((0 : Int), (1 : Int)), (0, -1), (1, 0), (-1, 0)],
      within_bounds b ((r : Int) + d.1) ((c : Int) + d.2) = true →
      (getCell b ((r : Int) + d.1).toNat ((c : Int) + d.2).toNat).state ≠ EMPTY →
      ∀ expected, lookupShape shape d = some expected →
        (getCell b ((r : Int) + d.1).toNat ((c : Int) + d.2).toNat).state = expected


/-- Two boards sharing dimension, clues, fleet, grid shape and all per-cell
fields except `state` and `is_hint` (the only fields the propagator's trial
mutations touch and the only fields a snapshot encodes). -/
def SameSkel (b bq : PuzzleBoard) : Prop :=
  bq.dimension = b.dimension ∧ bq.row_counts = b.row_counts ∧
  bq.col_counts = b.col_counts ∧ bq.fleet = b.fleet ∧
  bq.cells.length = b.cells.length ∧
  (∀ r, (bq.cells.getD r []).length = (b.cells.getD r []).length) ∧
  (∀ r c, (getCell bq r c).row = (getCell b r c).row ∧
          (getCell bq r c).col = (getCell b r c).col ∧
          (getCell bq r c).solution = (getCell b r c).solution ∧
          (getCell bq r c).hint_shape = (getCell b r c).hint_shape)

/-- A 10 by 10 board whose row 0 has cells 5-9 SEA (cells 0-4 EMPTY) and row
clue 4: a single empty segment of length 5 needing 4 ships. -/
def boardOverlap : PuzzleBoard :=
  setState (setState (setState (setState (setState
    (mkBoard 10 [4, 0, 0, 0, 0, 0, 0, 0, 0, 0] zeros10)
    0 5 SEA) 0 6 SEA) 0 7 SEA) 0 8 SEA) 0 9 SEA

/-- The cell produced by one `restore_snapshot` step: the decoded state and
hint flag of `ch` written over `cell`'s other fields. -/
def decodeCellChar (cell : GridCell) (ch : Char) : GridCell :=
  if ch = 'H' then { cell with state := SHIP, is_hint := true }
  else if ch = 'h' then { cell with state := SEA, is_hint := true }
  else if ch = 'S' then { cell with state := SHIP, is_hint := false }
  else if ch = '~' then { cell with state := SEA, is_hint := false }
  else { cell with state := EMPTY, is_hint := false }

/-- Claim C9: `TieredSolver.solve` is deterministic — two runs on
structurally identical input boards produce identical deduction sequences,
identical result records and identical final board states.  In the
embedding `solve` is a pure function of the board, so equal inputs give
equal (result record, final board) pairs. -/
theorem C9_deterministic (b1 b2 : PuzzleBoard) (h : b1 = b2) :
    solve b1 = solve b2 := by
  rw [h]

/-- Witness for C9 at a concrete input. -/
theorem C9_witness : solve boardZero = solve boardZero :=
  C9_deterministic boardZero boardZero rfl

/-- Claim C10: when the propagator's hint-constraint map pins `(r, c)` to a
value other than the trial value, `test_ship` (pin not SHIP) and
`test_water` (pin not SEA) report a contradiction immediately and leave the
whole propagator state — board cells and all line counters — unchanged. -/
theorem C10_pinned_trial_atomic (st : PropState) (r c : Nat) (v : CellState)
    (hpin : lookupLast st.hint_constraints (r, c) = some v) :
    (v ≠ SHIP → test_ship st r c = (true, st)) ∧
    (v ≠ SEA → test_water st r c = (true, st)) := by
  constructor
  · intro hv
    simp [test_ship, hpin, hv]
  · intro hv
    simp [test_water, hpin, hv]

/-- Witness for C10: a concrete propagator whose hint pins (1,0) to SEA and
(0,1) to SHIP. -/
theorem C10_witness :
    lookupLast (initProp boardPinned).hint_constraints (1, 0) = some SEA ∧
    lookupLast (initProp boardPinned).hint_constraints (0, 1) = some SHIP ∧
    test_ship (initProp boardPinned) 1 0 = (true, initProp boardPinned) ∧
    test_water (initProp boardPinned) 0 1 = (true, initProp boardPinned) :=
  ⟨by decide, by decide,
   (C10_pinned_trial_atomic (initProp boardPinned) 1 0 SEA (by decide)).1
     (by decide),
   (C10_pinned_trial_atomic (initProp boardPinned) 0 1 SHIP (by decide)).2
     (by decide)⟩

/-- Claim C1 (amended): after the loop, `solved` is true iff the board has
no EMPTY cells AND every clue is exactly satisfied AND no consistency check
during the loop failed (the `inconsistent` flag is false); `stuck` is the
negation of `solved`.  (The claim's stronger "the consistency invariants
hold on the final board" is refuted by the counterexample: the flag only
records checks made after batch applications, and a board that enters the
loop already solved is never checked.) -/
theorem C1_amended_solved_iff (b : PuzzleBoard) :
    (solve b).1.solved =
      (is_solved (solveLoop (initSolver b) 1000).1.board &&
        !(solveLoop (initSolver b) 1000).2 &&
        clues_satisfied (solveLoop (initSolver b) 1000).1.board) ∧
    (solve b).1.stuck = !(solve b).1.solved := by
  constructor
  · cases h : is_solved (solveLoop (initSolver b) 1000).1.board <;>
      simp [solve, h]
  · rfl

/-- Counterexample to C1 as stated: a fully filled input board whose clue
counts match exactly but whose two ships touch diagonally; `solve` returns
`solved = true` although the consistency invariants fail on the final
board. -/
theorem C1_counterexample :
    (solve boardDiagSolved).1.solved = true ∧
    is_consistent (solve boardDiagSolved).2 = false := by
  constructor <;> decide

/-- Claim C2 (amended): `valid` always equals `solved AND the final grid
matches the stored reference-solution states`.  When no reference solution
is supplied the stored states keep their EMPTY default, so `valid` is false
for any solved board rather than equal to `solved`. -/
theorem C2_amended_valid_eq (b : PuzzleBoard) :
    (solve b).1.valid = ((solve b).1.solved && matches_solution (solve b).2) :=
  rfl

/-- Counterexample to C2 as stated: a pre-solved board with no reference
solution supplied; `solved = true` but `valid = false`, so `valid` does not
equal `solved`. -/
theorem C2_counterexample :
    (solve boardSeaNoRef).1.solved = true ∧
    (solve boardSeaNoRef).1.valid = false := by
  constructor <;> decide

set_option maxRecDepth 1000000 in
/-- Claim C4 (amended): on the all-zero-clue hint-free 10 by 10 board,
`solve` returns `solved = true` with every cell SEA, and `techniques_used`
consists of exactly 200 deductions, all tagged T1.1 — `zero_clue` emits each
cell once for its zero row and once for its zero column, and the driver
applies the whole batch without deduplicating inside it. -/
theorem C4_amended_zero_clue_run :
    (solve boardZero).1.solved = true ∧
    (solve boardZero).1.techniques_used.length = 200 ∧
    ((solve boardZero).1.techniques_used.all fun d => d.technique = "T1.1") = true ∧
    ((List.range 10).all fun r => (List.range 10).all fun c =>
      (getCell (solve boardZero).2 r c).state = SEA) = true := by
  refine ⟨by decide, by decide, by decide, by decide⟩

set_option maxRecDepth 1000000 in
/-- Counterexample to C4 as stated: the techniques trail on the all-zero
board has 200 entries, not 100. -/
theorem C4_counterexample :
    ¬ (solve boardZero).1.techniques_used.length = 100 := by
  decide

/-- Claim C5 (amended): a board passing the driver's consistency check
`_is_consistent` satisfies the invariants that check actually enforces —
ship count at most the clue on every line, no diagonal SHIP contact, and
hint-shape agreement.  (The check does not enforce the claim's
ship-count + empty-count lower bound, nor fleet dominance; see the
counterexample.) -/
theorem C5_amended_consistency (b : PuzzleBoard) (h : is_consistent b = true) :
    ShipCountsWithinClues b ∧ NoDiagonalContact b ∧ HintShapesRespected b := by
  unfold is_consistent at h
  rw [Bool.and_eq_true, Bool.and_eq_true] at h
  obtain ⟨⟨h1, h2⟩, h3⟩ := h
  refine ⟨?_, ?_, ?_⟩
  · intro idx hidx
    have := List.all_eq_true.mp h1 idx (List.mem_range.mpr hidx)
    simpa using this
  · intro r c hr hc hship d hd hwb hshipn
    have hr2 := List.all_eq_true.mp h2 r (List.mem_range.mpr hr)
    have hc2 := List.all_eq_true.mp hr2 c (List.mem_range.mpr hc)
    rw [if_pos hship] at hc2
    have hd2 := List.all_eq_true.mp hc2 d hd
    rw [if_pos ⟨hwb, hshipn⟩] at hd2
    exact Bool.false_ne_true hd2
  · intro r c hr hc hhint hship shape hshape d hd hwb hne expected hexp
    have hr3 := List.all_eq_true.mp h3 r (List.mem_range.mpr hr)
    have hc3 := List.all_eq_true.mp hr3 c (List.mem_range.mpr hc)
    rw [if_pos ⟨hhint, hship⟩] at hc3
    rw [hshape] at hc3
    have hd3 := List.all_eq_true.mp hc3 d hd
    rw [if_pos hwb] at hd3
    rw [if_neg hne] at hd3
    rw [hexp] at hd3
    exact of_decide_eq_true hd3

/-- Witness for C5 (amended) at a concrete consistent board. -/
theorem C5_witness :
    is_consistent boardResolved = true ∧
    (ShipCountsWithinClues boardResolved ∧ NoDiagonalContact boardResolved ∧
      HintShapesRespected boardResolved) :=
  ⟨by decide, C5_amended_consistency boardResolved (by decide)⟩

set_option maxRecDepth 1000000 in
/-- Counterexample to C5 as stated: on the board with row-0 clue 2 and all
other clues 0, the driver's first (and only) batch turns every cell to SEA;
the consistency check passes (its deductions are recorded and the loop ends
with this very board), yet row 0 then violates the claimed invariant
ship-count + empty-count at least the clue. -/
theorem C5_counterexample :
    is_consistent (solve boardRowTwo).2 = true ∧
    (solve boardRowTwo).1.techniques_used ≠ [] ∧
    ¬ LineLowerBounds (solve boardRowTwo).2 := by
  refine ⟨by decide, by decide, ?_⟩
  intro h
  have := (h 0 (by decide)).1
  revert this
  decide


/-- Claim C3 (code bug witnessed): on the board with an isolated vertical
ship — SHIP at (0,0) and (1,0), bounded above by the edge and below by SEA
at (2,0) — `find_ship_runs` returns the empty list, omitting the complete
vertical run of length 2.  The horizontal sweep marks each of the two cells
visited (they are horizontally clean length-1 runs that fail the submarine
check) without recording them, so the vertical sweep skips the run,
contradicting the function's own docstring. -/
theorem C3_code_eval :
    find_ship_runs boardVerticalShip = [] ∧
    (getCell boardVerticalShip 0 0).state = SHIP ∧
    (getCell boardVerticalShip 1 0).state = SHIP ∧
    get_state_at boardVerticalShip 2 0 = SEA ∧
    get_state_at boardVerticalShip (-1) 0 = SEA := by
  refine ⟨by decide, by decide, by decide, by decide, by decide⟩

theorem getD_set_ne {α : Type} (l : List α) (i j : Nat) (a d : α) (h : i ≠ j) :
    (l.set i a).getD j d = l.getD j d := by
  simp [List.getD_eq_getElem?_getD, List.getElem?_set, h]

theorem getD_set_self {α : Type} (l : List α) (i : Nat) (a d : α)
    (h : i < l.length) : (l.set i a).getD i d = a := by
  simp [List.getD_eq_getElem?_getD, List.getElem?_set, h]

theorem getCell_setStateHint_ne (b : PuzzleBoard) (r c : Nat) (v : CellState)
    (hb : Bool) (r' c' : Nat) (hne : ¬ (r' = r ∧ c' = c)) :
    getCell (setStateHint b r c v hb) r' c' = getCell b r' c' := by
  unfold getCell setStateHint
  by_cases hr : r' = r
  · subst hr
    have hc : c' ≠ c := fun hh => hne ⟨rfl, hh⟩
    by_cases hlen : r' < b.cells.length
    · rw [getD_set_self _ _ _ _ hlen]
      rw [getD_set_ne _ _ _ _ _ (fun hh => hc hh.symm)]
    · rw [List.set_eq_of_length_le (Nat.le_of_not_lt hlen)]
  · rw [getD_set_ne _ _ _ _ _ (fun hh => hr hh.symm)]

theorem getCell_setStateHint_self (b : PuzzleBoard) (r c : Nat) (v : CellState)
    (hb : Bool) (hr : r < b.cells.length) (hc : c < (b.cells.getD r []).length) :
    getCell (setStateHint b r c v hb) r c =
      { getCell b r c with state := v, is_hint := hb } := by
  unfold getCell setStateHint
  rw [getD_set_self _ _ _ _ hr]
  rw [getD_set_self _ _ _ _ hc]

theorem getCell_restoreChar_ne (b : PuzzleBoard) (r c : Nat) (ch : Char)
    (r' c' : Nat) (hne : ¬ (r' = r ∧ c' = c)) :
    getCell (restoreChar b r c ch) r' c' = getCell b r' c' := by
  unfold restoreChar
  split_ifs <;> exact getCell_setStateHint_ne _ _ _ _ _ _ _ hne

theorem getCell_restoreChar_self (b : PuzzleBoard) (r c : Nat) (ch : Char)
    (hr : r < b.cells.length) (hc : c < (b.cells.getD r []).length) :
    getCell (restoreChar b r c ch) r c = decodeCellChar (getCell b r c) ch := by
  unfold restoreChar decodeCellChar
  split_ifs <;> exact getCell_setStateHint_self _ _ _ _ _ hr hc

theorem restoreChar_scalar (b : PuzzleBoard) (r c : Nat) (ch : Char) :
    (restoreChar b r c ch).dimension = b.dimension ∧
    (restoreChar b r c ch).row_counts = b.row_counts ∧
    (restoreChar b r c ch).col_counts = b.col_counts ∧
    (restoreChar b r c ch).fleet = b.fleet := by
  unfold restoreChar setStateHint
  split_ifs <;> exact ⟨rfl, rfl, rfl, rfl⟩

theorem restoreChar_length (b : PuzzleBoard) (r c : Nat) (ch : Char) :
    (restoreChar b r c ch).cells.length = b.cells.length := by
  unfold restoreChar setStateHint
  split_ifs <;> simp

theorem restoreChar_rowlen (b : PuzzleBoard) (r c : Nat) (ch : Char)
    (r' : Nat) :
    ((restoreChar b r c ch).cells.getD r' []).length =
      (b.cells.getD r' []).length := by
  unfold restoreChar setStateHint
  have key : ∀ cell : GridCell,
      ((b.cells.set r ((b.cells.getD r []).set c cell)).getD r' []).length =
        (b.cells.getD r' []).length := by
    intro cell
    by_cases hr : r' = r
    · subst hr
      by_cases hlen : r' < b.cells.length
      · rw [getD_set_self _ _ _ _ hlen]
        simp
      · rw [List.set_eq_of_length_le (Nat.le_of_not_lt hlen)]
    · rw [getD_set_ne _ _ _ _ _ (fun hh => hr hh.symm)]
  split_ifs <;> exact key _

theorem restoreAux_scalar (chars : List Char) :
    ∀ (b : PuzzleBoard) (i : Nat),
    (restoreAux b i chars).dimension = b.dimension ∧
    (restoreAux b i chars).row_counts = b.row_counts ∧
    (restoreAux b i chars).col_counts = b.col_counts ∧
    (restoreAux b i chars).fleet = b.fleet := by
  induction chars with
  | nil => intro b i; exact ⟨rfl, rfl, rfl, rfl⟩
  | cons ch rest ih =>
      intro b i
      have h1 := ih (restoreChar b (i / b.dimension) (i % b.dimension) ch) (i + 1)
      have h2 := restoreChar_scalar b (i / b.dimension) (i % b.dimension) ch
      exact ⟨h1.1.trans h2.1, h1.2.1.trans h2.2.1,
             h1.2.2.1.trans h2.2.2.1, h1.2.2.2.trans h2.2.2.2⟩

theorem restoreAux_length (chars : List Char) :
    ∀ (b : PuzzleBoard) (i : Nat),
    (restoreAux b i chars).cells.length = b.cells.length ∧
    ∀ r, ((restoreAux b i chars).cells.getD r []).length =
      (b.cells.getD r []).length := by
  induction chars with
  | nil => intro b i; exact ⟨rfl, fun _ => rfl⟩
  | cons ch rest ih =>
      intro b i
      have h1 := ih (restoreChar b (i / b.dimension) (i % b.dimension) ch) (i + 1)
      refine ⟨h1.1.trans (restoreChar_length _ _ _ _), fun r => ?_⟩
      exact (h1.2 r).trans (restoreChar_rowlen _ _ _ _ _)

theorem getCell_restoreAux_lt (chars : List Char) :
    ∀ (b : PuzzleBoard) (i r c : Nat), c < b.dimension →
    r * b.dimension + c < i →
    getCell (restoreAux b i chars) r c = getCell b r c := by
  induction chars with
  | nil => intro b i r c _ _; rfl
  | cons ch rest ih =>
      intro b i r c hc hlt
      show getCell (restoreAux (restoreChar b (i / b.dimension)
        (i % b.dimension) ch) (i + 1) rest) r c = getCell b r c
      have hdim : (restoreChar b (i / b.dimension) (i % b.dimension) ch).dimension
          = b.dimension := (restoreChar_scalar _ _ _ _).1
      have step := ih (restoreChar b (i / b.dimension) (i % b.dimension) ch)
        (i + 1) r c (by rw [hdim]; exact hc)
        (by rw [hdim]; omega)
      rw [step]
      apply getCell_restoreChar_ne
      rintro ⟨hr, hcc⟩
      have : i = r * b.dimension + c := by
        subst hr hcc
        exact (Nat.div_add_mod i b.dimension).symm.trans
          (by rw [Nat.mul_comm])
      omega

theorem getCell_restoreAux_hit (chars : List Char) :
    ∀ (b : PuzzleBoard) (i r c : Nat), c < b.dimension →
    r < b.cells.length → c < (b.cells.getD r []).length →
    i ≤ r * b.dimension + c → r * b.dimension + c < i + chars.length →
    getCell (restoreAux b i chars) r c =
      decodeCellChar (getCell b r c)
        (chars.getD (r * b.dimension + c - i) ' ') := by
  induction chars with
  | nil => intro b i r c _ _ _ hle hlt; simp at hlt; omega
  | cons ch rest ih =>
      intro b i r c hc hr hcl hle hlt
      show getCell (restoreAux (restoreChar b (i / b.dimension)
        (i % b.dimension) ch) (i + 1) rest) r c = _
      have hdim : (restoreChar b (i / b.dimension) (i % b.dimension) ch).dimension
          = b.dimension := (restoreChar_scalar _ _ _ _).1
      have hlen := restoreChar_length b (i / b.dimension) (i % b.dimension) ch
      have hrowlen := restoreChar_rowlen b (i / b.dimension) (i % b.dimension) ch r
      by_cases hhit : i = r * b.dimension + c
      · -- the head character writes exactly cell (r, c)
        have hdvd : i / b.dimension = r := by
          rw [hhit, Nat.mul_comm, Nat.mul_add_div (by omega)]
          rw [Nat.div_eq_of_lt hc]
          omega
        have hmod : i % b.dimension = c := by
          rw [hhit, Nat.mul_comm, Nat.mul_add_mod]
          exact Nat.mod_eq_of_lt hc
        rw [hdvd, hmod]
        have hsub : r * b.dimension + c - i = 0 := by omega
        rw [hsub]
        have huntouched := getCell_restoreAux_lt rest
          (restoreChar b r c ch) (i + 1) r c
          (by rw [(restoreChar_scalar b r c ch).1]; exact hc)
          (by rw [(restoreChar_scalar b r c ch).1]; omega)
        rw [huntouched]
        rw [getCell_restoreChar_self b r c ch hr hcl]
        rfl
      · -- the head character writes a different cell
        have hne : ¬ (r = i / b.dimension ∧ c = i % b.dimension) := by
          rintro ⟨h1, h2⟩
          have : i = r * b.dimension + c := by
            rw [h1, h2, Nat.mul_comm]
            exact (Nat.div_add_mod i b.dimension).symm
          omega
        have step := ih (restoreChar b (i / b.dimension) (i % b.dimension) ch)
          (i + 1) r c (by rw [hdim]; exact hc)
          (by rw [hlen]; exact hr) (by rw [hrowlen]; exact hcl)
          (by rw [hdim]; omega)
          (by rw [hdim]; simp only [List.length_cons] at hlt; omega)
        rw [hdim] at step
        rw [step]
        rw [getCell_restoreChar_ne b (i / b.dimension) (i % b.dimension) ch r c hne]
        have hgd : (ch :: rest).getD (r * b.dimension + c - i) ' ' =
            rest.getD (r * b.dimension + c - i - 1) ' ' := by
          have h1 : r * b.dimension + c - i = (r * b.dimension + c - i - 1) + 1 := by
            omega
          rw [h1]
          rfl
        rw [hgd]
        rw [show r * b.dimension + c - (i + 1) = r * b.dimension + c - i - 1 from by
          omega]

theorem snapAux_length (b : PuzzleBoard) :
    ∀ (fuel r : Nat), (snapAux b r fuel).length = fuel * b.dimension := by
  intro fuel
  induction fuel with
  | zero => intro r; simp [snapAux]
  | succ f ih =>
      intro r
      show (((List.range b.dimension).map _) ++ snapAux b (r + 1) f).length = _
      rw [List.length_append, List.length_map, List.length_range, ih]
      ring

theorem snapAux_getD (b : PuzzleBoard) :
    ∀ (fuel r0 k : Nat), k < fuel * b.dimension →
    (snapAux b r0 fuel).getD k ' ' =
      encodeCell (getCell b (r0 + k / b.dimension) (k % b.dimension)) := by
  intro fuel
  induction fuel with
  | zero => intro r0 k h; simp at h
  | succ f ih =>
      intro r0 k h
      show (((List.range b.dimension).map fun c => encodeCell (getCell b r0 c))
        ++ snapAux b (r0 + 1) f).getD k ' ' = _
      have hmul : (f + 1) * b.dimension = f * b.dimension + b.dimension := by
        ring
      by_cases hk : k < b.dimension
      · rw [List.getD_eq_getElem?_getD, List.getElem?_append]
        rw [if_pos (by simp [hk])]
        rw [List.getElem?_map]
        simp [List.getElem?_range hk]
        rw [Nat.div_eq_of_lt hk, Nat.mod_eq_of_lt hk]
        simp
      · have hk2 : b.dimension ≤ k := Nat.le_of_not_lt hk
        have hd : 0 < b.dimension := by
          rcases Nat.eq_zero_or_pos b.dimension with h0 | h0
          · rw [h0] at h; simp at h
          · exact h0
        rw [List.getD_eq_getElem?_getD, List.getElem?_append]
        rw [if_neg (by simp; omega)]
        rw [← List.getD_eq_getElem?_getD]
        simp only [List.length_map, List.length_range]
        rw [ih (r0 + 1) (k - b.dimension) (by omega)]
        have h1 : k / b.dimension = (k - b.dimension) / b.dimension + 1 := by
          conv_lhs => rw [← Nat.sub_add_cancel hk2]
          rw [Nat.add_div_right _ hd]
        have h2 : k % b.dimension = (k - b.dimension) % b.dimension := by
          conv_lhs => rw [← Nat.sub_add_cancel hk2]
          rw [Nat.add_mod_right]
        rw [h1, h2]
        congr 2
        omega

theorem decodeCellChar_encodeCell (cb cq : GridCell)
    (hres : cb.is_hint = true → cb.state ≠ EMPTY) :
    decodeCellChar cq (encodeCell cb) =
      { cq with state := cb.state, is_hint := cb.is_hint } := by
  obtain ⟨row, col, st, sol, ih, hs⟩ := cb
  cases st <;> cases ih <;>
    simp_all [encodeCell, decodeCellChar]

theorem wf_board_spec (b : PuzzleBoard) (h : wf_board b = true) :
    b.cells.length = b.dimension ∧
    (∀ r, r < b.dimension → (b.cells.getD r []).length = b.dimension) ∧
    b.row_counts.length = b.dimension ∧ b.col_counts.length = b.dimension := by
  unfold wf_board at h
  rw [Bool.and_eq_true, Bool.and_eq_true, Bool.and_eq_true] at h
  obtain ⟨⟨⟨h1, h2⟩, h3⟩, h4⟩ := h
  refine ⟨by exact_mod_cast of_decide_eq_true h1, ?_,
    by exact_mod_cast of_decide_eq_true h3,
    by exact_mod_cast of_decide_eq_true h4⟩
  intro r hr
  have hlen : b.cells.length = b.dimension := by
    exact_mod_cast of_decide_eq_true h1
  have hmem : b.cells.getD r [] ∈ b.cells := by
    rw [List.getD_eq_getElem b.cells [] (by omega)]
    exact List.getElem_mem _
  have := List.all_eq_true.mp h2 _ hmem
  exact_mod_cast of_decide_eq_true this

theorem hints_resolved_spec (b : PuzzleBoard) (h : hints_resolved b = true)
    (r c : Nat) (hr : r < b.cells.length)
    (hc : c < (b.cells.getD r []).length) :
    (getCell b r c).is_hint = true → (getCell b r c).state ≠ EMPTY := by
  unfold hints_resolved at h
  have hmem : b.cells.getD r [] ∈ b.cells := by
    rw [List.getD_eq_getElem b.cells [] hr]
    exact List.getElem_mem _
  have hrow := List.all_eq_true.mp h _ hmem
  have hcmem : getCell b r c ∈ b.cells.getD r [] := by
    unfold getCell
    rw [List.getD_eq_getElem _ dummyCell hc]
    exact List.getElem_mem _
  have := List.all_eq_true.mp hrow _ hcmem
  intro hh
  simp [hh] at this
  exact this

theorem gridcell_override (x y : GridCell) (h1 : x.row = y.row)
    (h2 : x.col = y.col) (h3 : x.solution = y.solution)
    (h4 : x.hint_shape = y.hint_shape) :
    { x with state := y.state, is_hint := y.is_hint } = y := by
  cases x; cases y; simp_all

theorem restore_roundtrip (b bq : PuzzleBoard) (hwf : wf_board b = true)
    (hres : hints_resolved b = true) (hskel : SameSkel b bq) :
    restore_snapshot bq (get_snapshot b) = b := by
  obtain ⟨hdim, hrowc, hcolc, hfleet, hlen, hrowlen, hfields⟩ := hskel
  obtain ⟨hblen, hbrow, _, _⟩ := wf_board_spec b hwf
  have hcell : ∀ r c, r < b.dimension → c < b.dimension →
      getCell (restore_snapshot bq (get_snapshot b)) r c = getCell b r c := by
    intro r c hr hc
    have hd : 0 < b.dimension := by omega
    have hk : r * b.dimension + c < b.dimension * b.dimension := by
      have h1 : r + 1 ≤ b.dimension := hr
      calc r * b.dimension + c < r * b.dimension + b.dimension := by omega
        _ = (r + 1) * b.dimension := by ring
        _ ≤ b.dimension * b.dimension := Nat.mul_le_mul_right _ h1
    have hrb : r < b.cells.length := by omega
    have hcb : c < (b.cells.getD r []).length := by
      rw [hbrow r hr]; exact hc
    unfold restore_snapshot get_snapshot
    rw [getCell_restoreAux_hit (snapAux b 0 b.dimension) bq 0 r c
      (by rw [hdim]; exact hc)
      (by rw [hlen]; exact hrb)
      (by rw [hrowlen r]; exact hcb)
      (Nat.zero_le _)
      (by rw [snapAux_length, hdim]; omega)]
    rw [hdim]
    rw [Nat.sub_zero]
    rw [snapAux_getD b b.dimension 0 (r * b.dimension + c) hk]
    have hdvd : (r * b.dimension + c) / b.dimension = r := by
      rw [Nat.mul_comm, Nat.mul_add_div hd, Nat.div_eq_of_lt hc]
      omega
    have hmod : (r * b.dimension + c) % b.dimension = c := by
      rw [Nat.mul_comm, Nat.mul_add_mod]
      exact Nat.mod_eq_of_lt hc
    rw [hdvd, hmod]
    simp only [Nat.zero_add]
    rw [decodeCellChar_encodeCell (getCell b r c) (getCell bq r c)
      (hints_resolved_spec b hres r c hrb hcb)]
    have hf := hfields r c
    exact gridcell_override _ _ hf.1 hf.2.1 hf.2.2.1 hf.2.2.2
  have hreslen := restoreAux_length (snapAux b 0 b.dimension) bq 0
  have hresscal := restoreAux_scalar (snapAux b 0 b.dimension) bq 0
  have hcells : (restoreAux bq 0 (snapAux b 0 b.dimension)).cells = b.cells := by
    apply List.ext_getElem
    · rw [hreslen.1, hlen]
    · intro r h1 h2
      have hrdim : r < b.dimension := by
        rw [← hblen]; exact h2
      apply List.ext_getElem
      · rw [← List.getD_eq_getElem _ [] h1, ← List.getD_eq_getElem _ [] h2]
        rw [hreslen.2 r, hrowlen r]
      · intro c hc1 hc2
        have hcdim : c < b.dimension := by
          rw [← hbrow r hrdim, List.getD_eq_getElem _ [] h2]
          exact hc2
        have key := hcell r c hrdim hcdim
        unfold restore_snapshot get_snapshot getCell at key
        rw [List.getD_eq_getElem _ [] h1] at key
        rw [List.getD_eq_getElem _ [] h2] at key
        rw [List.getD_eq_getElem _ dummyCell hc1] at key
        rw [List.getD_eq_getElem _ dummyCell hc2] at key
        exact key
  have e1 := hresscal.1.trans hdim
  have e2 := hresscal.2.1.trans hrowc
  have e3 := hresscal.2.2.1.trans hcolc
  have e4 := hresscal.2.2.2.trans hfleet
  show restoreAux bq 0 (snapAux b 0 b.dimension) = b
  have heta : restoreAux bq 0 (snapAux b 0 b.dimension) =
      ⟨(restoreAux bq 0 (snapAux b 0 b.dimension)).dimension,
       (restoreAux bq 0 (snapAux b 0 b.dimension)).cells,
       (restoreAux bq 0 (snapAux b 0 b.dimension)).row_counts,
       (restoreAux bq 0 (snapAux b 0 b.dimension)).col_counts,
       (restoreAux bq 0 (snapAux b 0 b.dimension)).fleet⟩ := rfl
  rw [heta, e1, e2, e3, e4]
  rw [show (restoreAux bq 0 (snapAux b 0 b.dimension)).cells = b.cells from hcells]

theorem sameSkel_refl (b : PuzzleBoard) : SameSkel b b :=
  ⟨rfl, rfl, rfl, rfl, rfl, fun _ => rfl, fun _ _ => ⟨rfl, rfl, rfl, rfl⟩⟩

/-- Claim C6 (amended): on any well-formed board whose hint cells are
resolved (non-EMPTY — true of every board whose hints reveal an actual
state), `restore_snapshot (get_snapshot ())` is the identity: every cell's
state and `is_hint` flag is recovered exactly, and — since the pair only
rewrites those two fields — the hint-shape maps (and reference solutions,
clues and fleet) are unchanged. -/
theorem C6_amended_roundtrip (b : PuzzleBoard) (hwf : wf_board b = true)
    (hres : hints_resolved b = true) :
    restore_snapshot b (get_snapshot b) = b :=
  restore_roundtrip b b hwf hres (sameSkel_refl b)

/-- Witness for C6 (amended) at a concrete board with a resolved hint. -/
theorem C6_witness :
    wf_board boardResolved = true ∧ hints_resolved boardResolved = true ∧
    restore_snapshot boardResolved (get_snapshot boardResolved) =
      boardResolved :=
  ⟨by decide, by decide,
   C6_amended_roundtrip boardResolved (by decide) (by decide)⟩

/-- Counterexample to C6 as stated: a parser-reachable board carrying a hint
whose state is EMPTY (the parser accepts hint value 0 / "empty").  The
snapshot encodes that hint as 'h' and restoration turns it into SEA, so the
round trip is not the identity. -/
theorem C6_counterexample :
    (getCell boardEmptyHint 0 0).is_hint = true ∧
    (getCell boardEmptyHint 0 0).state = EMPTY ∧
    (getCell (restore_snapshot boardEmptyHint (get_snapshot boardEmptyHint))
      0 0).state = SEA ∧
    restore_snapshot boardEmptyHint (get_snapshot boardEmptyHint) ≠
      boardEmptyHint := by
  refine ⟨by decide, by decide, by decide, by decide⟩

theorem segsAux_skip_false (k : Nat) :
    ∀ (rest : List Bool) (i : Nat),
    segsAux (List.replicate k false ++ rest) i none = segsAux rest (i + k) none := by
  induction k with
  | zero => intro rest i; rfl
  | succ m ih =>
      intro rest i
      show segsAux (false :: (List.replicate m false ++ rest)) i none = _
      rw [show segsAux (false :: (List.replicate m false ++ rest)) i none =
        segsAux (List.replicate m false ++ rest) (i + 1) none from rfl]
      rw [ih rest (i + 1)]
      congr 1
      omega

theorem segsAux_run_true (k : Nat) :
    ∀ (rest : List Bool) (i s : Nat),
    segsAux (List.replicate k true ++ rest) i (some s) =
      segsAux rest (i + k) (some s) := by
  induction k with
  | zero => intro rest i s; rfl
  | succ m ih =>
      intro rest i s
      show segsAux (true :: (List.replicate m true ++ rest)) i (some s) = _
      rw [show segsAux (true :: (List.replicate m true ++ rest)) i (some s) =
        segsAux (List.replicate m true ++ rest) (i + 1) (some s) from rfl]
      rw [ih rest (i + 1) s]
      congr 1
      omega

theorem segsAux_single (sN L tailN : Nat) (hL : 0 < L) (htail : 0 < tailN) :
    segsAux (List.replicate sN false ++ List.replicate L true ++
      List.replicate tailN false) 0 none = [(sN, sN + L - 1)] := by
  rw [List.append_assoc]
  rw [segsAux_skip_false]
  obtain ⟨L2, rfl⟩ : ∃ L2, L = L2 + 1 := ⟨L - 1, by omega⟩
  rw [show List.replicate (L2 + 1) true = true :: List.replicate L2 true from rfl]
  rw [show segsAux ((true :: List.replicate L2 true) ++
      List.replicate tailN false) (0 + sN) none =
    segsAux (List.replicate L2 true ++ List.replicate tailN false)
      (0 + sN + 1) (some (0 + sN)) from rfl]
  rw [segsAux_run_true]
  obtain ⟨t2, rfl⟩ : ∃ t2, tailN = t2 + 1 := ⟨tailN - 1, by omega⟩
  rw [show List.replicate (t2 + 1) false = false :: List.replicate t2 false from
    rfl]
  rw [show segsAux (false :: List.replicate t2 false)
      (0 + sN + 1 + L2) (some (0 + sN)) =
    (0 + sN, 0 + sN + 1 + L2 - 1) ::
      segsAux (List.replicate t2 false) (0 + sN + 1 + L2 + 1) none from rfl]
  rw [show List.replicate t2 false = List.replicate t2 false ++ [] from
    (List.append_nil _).symm]
  rw [segsAux_skip_false]
  show [(0 + sN, 0 + sN + 1 + L2 - 1)] = [(sN, sN + (L2 + 1) - 1)]
  congr 1
  rw [Prod.mk.injEq]
  constructor <;> omega

theorem lineMask_getElem (b : PuzzleBoard) (idx : Nat) (is_row : Bool)
    (n : Nat) (hn : n < b.dimension) :
    (lineMask b idx is_row)[n]? =
      some (decide ((lineCell b idx is_row n).state = EMPTY)) := by
  simp [lineMask, List.getElem?_map, List.getElem?_range, hn]

theorem lineMask_single (b : PuzzleBoard) (idx : Nat) (is_row : Bool)
    (s e : Nat) (hse : s ≤ e) (he : e < b.dimension)
    (hsingle : ∀ i, i < b.dimension →
      ((lineCell b idx is_row i).state = EMPTY ↔ (s ≤ i ∧ i ≤ e))) :
    lineMask b idx is_row ++ [false] =
      List.replicate s false ++ (List.replicate (e + 1 - s) true ++
        List.replicate (b.dimension - e) false) := by
  have hlen1 : (lineMask b idx is_row).length = b.dimension := by
    simp [lineMask]
  apply List.ext_getElem?
  intro n
  rw [List.getElem?_append, List.getElem?_append]
  by_cases h1 : n < s
  · rw [if_pos (by rw [hlen1]; omega), if_pos (by simp; omega)]
    rw [List.getElem?_replicate, if_pos h1]
    rw [lineMask_getElem b idx is_row n (by omega)]
    have hne : ¬ (lineCell b idx is_row n).state = EMPTY := by
      intro hh
      have := (hsingle n (by omega)).mp hh
      omega
    simp [hne]
  · by_cases h2 : n ≤ e
    · rw [if_pos (by rw [hlen1]; omega), if_neg (by simp; omega)]
      rw [List.getElem?_append]
      rw [if_pos (by simp; omega)]
      rw [List.getElem?_replicate, if_pos (by simp; omega)]
      rw [lineMask_getElem b idx is_row n (by omega)]
      have hemp : (lineCell b idx is_row n).state = EMPTY :=
        (hsingle n (by omega)).mpr ⟨by omega, h2⟩
      simp [hemp]
    · by_cases h3 : n < b.dimension
      · rw [if_pos (by rw [hlen1]; omega), if_neg (by simp; omega)]
        rw [List.getElem?_append]
        rw [if_neg (by simp; omega)]
        rw [List.getElem?_replicate, if_pos (by simp; omega)]
        rw [lineMask_getElem b idx is_row n h3]
        have hne : ¬ (lineCell b idx is_row n).state = EMPTY := by
          intro hh
          have := (hsingle n h3).mp hh
          omega
        simp [hne]
      · by_cases h4 : n = b.dimension
        · rw [if_neg (by rw [hlen1]; omega), if_neg (by simp; omega)]
          rw [List.getElem?_append]
          rw [if_neg (by simp; omega)]
          rw [List.getElem?_replicate, if_pos (by simp; omega)]
          rw [hlen1, h4]
          simp
        · rw [if_neg (by rw [hlen1]; omega), if_neg (by simp; omega)]
          rw [List.getElem?_append]
          rw [if_neg (by simp; omega)]
          rw [List.getElem?_replicate, if_neg (by simp; omega)]
          rw [hlen1]
          have : ¬ (n - b.dimension) < 1 := by omega
          simp [this]
          omega

theorem segsAux_sound :
    ∀ (mask : List Bool) (i : Nat) (st : Option Nat),
    (∀ s, st = some s → s < i) →
    ∀ p ∈ segsAux mask i st,
      p.1 ≤ p.2 ∧
      (st = none → i ≤ p.1) ∧
      (∀ s, st = some s → p.1 = s ∨ i + 1 ≤ p.1) ∧
      (∀ t, i ≤ t → p.1 ≤ t → t ≤ p.2 → mask.getD (t - i) false = true) := by
  intro mask
  induction mask with
  | nil => intro i st _ p hp; simp [segsAux] at hp
  | cons bb rest ih =>
      intro i st hinv p hp
      cases st with
      | none =>
          cases hbb : bb with
          | true =>
              rw [hbb] at hp
              rw [show segsAux (true :: rest) i none =
                segsAux rest (i + 1) (some i) from rfl] at hp
              obtain ⟨hle, _, hsome, ht⟩ :=
                ih (i + 1) (some i)
                  (fun s hs => by injection hs with hh; omega) p hp
              have hstart : i ≤ p.1 := by
                rcases hsome i rfl with h | h <;> omega
              refine ⟨hle, fun _ => hstart,
                fun s hs => Option.noConfusion hs, ?_⟩
              intro t hti htp hte
              by_cases hti2 : t = i
              · subst hti2
                rw [Nat.sub_self]
                rfl
              · have h2 : i + 1 ≤ t := by omega
                have := ht t h2 htp hte
                rw [show t - i = (t - (i + 1)) + 1 from by omega]
                simpa using this
          | false =>
              rw [hbb] at hp
              rw [show segsAux (false :: rest) i none =
                segsAux rest (i + 1) none from rfl] at hp
              obtain ⟨hle, hnone, _, ht⟩ :=
                ih (i + 1) none (fun s hs => Option.noConfusion hs) p hp
              have h1 : i + 1 ≤ p.1 := hnone rfl
              refine ⟨hle, fun _ => by omega,
                fun s hs => Option.noConfusion hs, ?_⟩
              intro t hti htp hte
              have h2 : i + 1 ≤ t := by omega
              have := ht t h2 htp hte
              rw [show t - i = (t - (i + 1)) + 1 from by omega]
              simpa using this
      | some s =>
          have hsi : s < i := hinv s rfl
          cases hbb : bb with
          | true =>
              rw [hbb] at hp
              rw [show segsAux (true :: rest) i (some s) =
                segsAux rest (i + 1) (some s) from rfl] at hp
              obtain ⟨hle, _, hsome, ht⟩ :=
                ih (i + 1) (some s)
                  (fun s2 hs2 => by injection hs2 with hh; omega) p hp
              refine ⟨hle, fun h => Option.noConfusion h, ?_, ?_⟩
              · intro s2 hs2
                injection hs2 with hh
                subst hh
                rcases hsome s rfl with h | h
                · exact Or.inl h
                · exact Or.inr (by omega)
              · intro t hti htp hte
                by_cases hti2 : t = i
                · subst hti2
                  rw [Nat.sub_self]
                  rfl
                · have h2 : i + 1 ≤ t := by omega
                  have := ht t h2 htp hte
                  rw [show t - i = (t - (i + 1)) + 1 from by omega]
                  simpa using this
          | false =>
              rw [hbb] at hp
              rw [show segsAux (false :: rest) i (some s) =
                (s, i - 1) :: segsAux rest (i + 1) none from rfl] at hp
              rcases List.mem_cons.mp hp with heq | htail
              · subst heq
                refine ⟨by simp; omega, fun h => Option.noConfusion h, ?_, ?_⟩
                · intro s2 hs2
                  injection hs2 with hh
                  exact Or.inl hh
                · intro t hti htp hte
                  simp at hte
                  omega
              · obtain ⟨hle, hnone, _, ht⟩ :=
                  ih (i + 1) none (fun s2 hs2 => Option.noConfusion hs2) p htail
                have h1 : i + 1 ≤ p.1 := hnone rfl
                refine ⟨hle, fun h => Option.noConfusion h,
                  fun s2 hs2 => Or.inr (by omega), ?_⟩
                intro t hti htp hte
                have h2 : i + 1 ≤ t := by omega
                have := ht t h2 htp hte
                rw [show t - i = (t - (i + 1)) + 1 from by omega]
                simpa using this

theorem segsAux_closes :
    ∀ (mask : List Bool) (i s : Nat),
    (∃ u, u < mask.length ∧ mask.getD u false = false) →
    ∃ e0, (s, e0) ∈ segsAux mask i (some s) ∧ i ≤ e0 + 1 := by
  intro mask
  induction mask with
  | nil =>
      intro i s hu
      obtain ⟨u, hu1, _⟩ := hu
      simp at hu1
  | cons bb rest ih =>
      intro i s hu
      cases hbb : bb with
      | true =>
          obtain ⟨u, hu1, hu2⟩ := hu
          have hu0 : u ≠ 0 := by
            intro hh
            rw [hh] at hu2
            simp [hbb] at hu2
          obtain ⟨e0, hmem, he0⟩ := ih (i + 1) s
            ⟨u - 1, by simp at hu1; omega, by
              rw [show u = (u - 1) + 1 from by omega] at hu2
              simpa using hu2⟩
          exact ⟨e0, by
            rw [show segsAux (true :: rest) i (some s) =
              segsAux rest (i + 1) (some s) from rfl]
            exact hmem, by omega⟩
      | false =>
          refine ⟨i - 1, ?_, by omega⟩
          rw [show segsAux (false :: rest) i (some s) =
            (s, i - 1) :: segsAux rest (i + 1) none from rfl]
          exact List.mem_cons_self _ _

theorem segsAux_complete :
    ∀ (mask : List Bool) (i : Nat) (st : Option Nat) (t : Nat),
    (∀ s, st = some s → s < i) →
    i ≤ t → mask.getD (t - i) false = true →
    (∃ u, t - i < u ∧ u < mask.length ∧ mask.getD u false = false) →
    ∃ p, p ∈ segsAux mask i st ∧ p.1 ≤ t ∧ t ≤ p.2 := by
  intro mask
  induction mask with
  | nil =>
      intro i st t _ _ _ hu
      obtain ⟨u, _, hu1, _⟩ := hu
      simp at hu1
  | cons bb rest ih =>
      intro i st t hinv hit hmask hu
      obtain ⟨u, hu0, hu1, hu2⟩ := hu
      by_cases hti : t = i
      · -- the current position is true, so bb = true
        subst hti
        rw [Nat.sub_self] at hmask
        have hbb : bb = true := hmask
        subst hbb
        have hu0' : u ≠ 0 := by
          intro hh
          rw [hh] at hu2
          simp at hu2
        have hrest : ∃ u2, u2 < rest.length ∧ rest.getD u2 false = false :=
          ⟨u - 1, by simp at hu1; omega, by
            rw [show u = (u - 1) + 1 from by omega] at hu2
            simpa using hu2⟩
        cases st with
        | none =>
            obtain ⟨e0, hmem, he0⟩ := segsAux_closes rest (t + 1) t hrest
            exact ⟨(t, e0), by
              rw [show segsAux (true :: rest) t none =
                segsAux rest (t + 1) (some t) from rfl]
              exact hmem, le_refl t, by omega⟩
        | some s =>
            have hs : s < t := hinv s rfl
            obtain ⟨e0, hmem, he0⟩ := segsAux_closes rest (t + 1) s hrest
            exact ⟨(s, e0), by
              rw [show segsAux (true :: rest) t (some s) =
                segsAux rest (t + 1) (some s) from rfl]
              exact hmem, by omega, by omega⟩
      · -- the position lies strictly beyond the head
        have hit2 : i + 1 ≤ t := by omega
        have hmask2 : rest.getD (t - (i + 1)) false = true := by
          rw [show t - i = (t - (i + 1)) + 1 from by omega] at hmask
          simpa using hmask
        have hu0' : u ≠ 0 := by omega
        have hrest : ∃ u2, t - (i + 1) < u2 ∧ u2 < rest.length ∧
            rest.getD u2 false = false :=
          ⟨u - 1, by omega, by simp at hu1; omega, by
            rw [show u = (u - 1) + 1 from by omega] at hu2
            simpa using hu2⟩
        cases st with
        | none =>
            cases hbb : bb with
            | true =>
                obtain ⟨p, hmem, hp⟩ := ih (i + 1) (some i) t
                  (fun s hs => by injection hs with hh; omega) hit2 hmask2 hrest
                exact ⟨p, by
                  rw [show segsAux (true :: rest) i none =
                    segsAux rest (i + 1) (some i) from rfl]
                  exact hmem, hp⟩
            | false =>
                obtain ⟨p, hmem, hp⟩ := ih (i + 1) none t
                  (fun s hs => Option.noConfusion hs) hit2 hmask2 hrest
                exact ⟨p, by
                  rw [show segsAux (false :: rest) i none =
                    segsAux rest (i + 1) none from rfl]
                  exact hmem, hp⟩
        | some s =>
            cases hbb : bb with
            | true =>
                obtain ⟨p, hmem, hp⟩ := ih (i + 1) (some s) t
                  (fun s2 hs2 => by injection hs2 with hh
                                    have := hinv s rfl
                                    omega) hit2 hmask2 hrest
                exact ⟨p, by
                  rw [show segsAux (true :: rest) i (some s) =
                    segsAux rest (i + 1) (some s) from rfl]
                  exact hmem, hp⟩
            | false =>
                obtain ⟨p, hmem, hp⟩ := ih (i + 1) none t
                  (fun s2 hs2 => Option.noConfusion hs2) hit2 hmask2 hrest
                exact ⟨p, by
                  rw [show segsAux (false :: rest) i (some s) =
                    (s, i - 1) :: segsAux rest (i + 1) none from rfl]
                  exact List.mem_cons_of_mem _ hmem, hp⟩

theorem maskS_getD_lt (b : PuzzleBoard) (idx : Nat) (is_row : Bool) (t : Nat)
    (ht : t < b.dimension) :
    (lineMask b idx is_row ++ [false]).getD t false =
      decide ((lineCell b idx is_row t).state = EMPTY) := by
  rw [List.getD_eq_getElem?_getD, List.getElem?_append]
  rw [if_pos (by simp [lineMask]; exact ht)]
  rw [lineMask_getElem b idx is_row t ht]
  rfl

theorem maskS_getD_dim (b : PuzzleBoard) (idx : Nat) (is_row : Bool) :
    (lineMask b idx is_row ++ [false]).getD b.dimension false = false := by
  rw [List.getD_eq_getElem?_getD, List.getElem?_append]
  rw [if_neg (by simp [lineMask])]
  simp [lineMask]

theorem findSegments_single (b : PuzzleBoard) (idx : Nat) (is_row : Bool)
    (s e : Nat) (hse : s ≤ e) (he : e < b.dimension)
    (hsingle : ∀ i, i < b.dimension →
      ((lineCell b idx is_row i).state = EMPTY ↔ (s ≤ i ∧ i ≤ e))) :
    findSegments b idx is_row = [(s, e)] := by
  unfold findSegments
  rw [lineMask_single b idx is_row s e hse he hsingle]
  rw [← List.append_assoc]
  rw [segsAux_single s (e + 1 - s) (b.dimension - e) (by omega) (by omega)]
  have : s + (e + 1 - s) - 1 = e := by omega
  rw [this]

theorem findSegments_not_single (b : PuzzleBoard) (idx : Nat) (is_row : Bool)
    (i0 j0 k0 : Nat) (hij : i0 < j0) (hjk : j0 < k0) (hk : k0 < b.dimension)
    (hi : (lineCell b idx is_row i0).state = EMPTY)
    (hj : (lineCell b idx is_row j0).state ≠ EMPTY)
    (hkk : (lineCell b idx is_row k0).state = EMPTY) :
    ∀ s0 e0, findSegments b idx is_row ≠ [(s0, e0)] := by
  intro s0 e0 heq
  have hlen : (lineMask b idx is_row ++ [false]).length = b.dimension + 1 := by
    simp [lineMask]
  have hu : ∀ t, t < b.dimension →
      ∃ u, t - 0 < u ∧ u < (lineMask b idx is_row ++ [false]).length ∧
        (lineMask b idx is_row ++ [false]).getD u false = false :=
    fun t ht => ⟨b.dimension, by omega, by omega,
      maskS_getD_dim b idx is_row⟩
  have hci := segsAux_complete (lineMask b idx is_row ++ [false]) 0 none i0
    (fun s hs => Option.noConfusion hs) (Nat.zero_le _)
    (by rw [Nat.sub_zero, maskS_getD_lt b idx is_row i0 (by omega)]
        simp [hi])
    (hu i0 (by omega))
  have hck := segsAux_complete (lineMask b idx is_row ++ [false]) 0 none k0
    (fun s hs => Option.noConfusion hs) (Nat.zero_le _)
    (by rw [Nat.sub_zero, maskS_getD_lt b idx is_row k0 hk]
        simp [hkk])
    (hu k0 hk)
  obtain ⟨p1, hp1mem, hp1a, hp1b⟩ := hci
  obtain ⟨p2, hp2mem, hp2a, hp2b⟩ := hck
  have hfseq : segsAux (lineMask b idx is_row ++ [false]) 0 none =
      [(s0, e0)] := heq
  rw [hfseq] at hp1mem hp2mem
  rw [List.mem_singleton] at hp1mem hp2mem
  subst hp1mem
  have hp2eq : ((s0, e0) : Nat × Nat).1 = p2.1 ∧
      ((s0, e0) : Nat × Nat).2 = p2.2 := by
    rw [hp2mem]
    exact ⟨rfl, rfl⟩
  have hsound := segsAux_sound (lineMask b idx is_row ++ [false]) 0 none
    (fun s hs => Option.noConfusion hs) (s0, e0)
    (by rw [hfseq]; exact List.mem_singleton_self _)
  have hjmem := hsound.2.2.2 j0 (Nat.zero_le _) (by simp at hp1a ⊢; omega)
    (by simp at hp2b hp2eq ⊢; omega)
  rw [Nat.sub_zero, maskS_getD_lt b idx is_row j0 (by omega)] at hjmem
  exact hj (of_decide_eq_true hjmem)

theorem filterMap_guard_map {α β : Type} (p : α → Prop) [DecidablePred p]
    (f : α → β) :
    ∀ (l : List α), (∀ x ∈ l, p x) →
    l.filterMap (fun x => if p x then some (f x) else none) = l.map f := by
  intro l
  induction l with
  | nil => intro _; rfl
  | cons x xs ih =>
      intro h
      simp only [List.filterMap_cons, List.map_cons]
      rw [if_pos (h x (List.mem_cons_self x xs))]
      rw [ih (fun y hy => h y (List.mem_cons_of_mem _ hy))]

theorem overlapLine_nonpos (b : PuzzleBoard) (idx : Nat) (is_row : Bool)
    (h : get_clue b idx is_row - ((count_in_line b idx is_row).1 : Int) ≤ 0) :
    overlapLine b idx is_row = [] := by
  simp only [overlapLine]
  rw [if_pos h]

theorem overlapLine_single (b : PuzzleBoard) (idx : Nat) (is_row : Bool)
    (s e M : Nat) (hse : s ≤ e) (he : e < b.dimension)
    (hsingle : ∀ i, i < b.dimension →
      ((lineCell b idx is_row i).state = EMPTY ↔ (s ≤ i ∧ i ≤ e)))
    (hM : get_clue b idx is_row - ((count_in_line b idx is_row).1 : Int) =
      (M : Int))
    (hMpos : 0 < M) :
    (M < e + 1 - s →
      overlapLine b idx is_row =
        (List.range' (e + 1 - s - M) (M + M - (e + 1 - s))).map
          fun seg_i =>
            if is_row then make_deduction idx (s + seg_i) SHIP "T3.3" 3 6
            else make_deduction (s + seg_i) idx SHIP "T3.3" 3 6) ∧
    (e + 1 - s ≤ M → overlapLine b idx is_row = []) := by
  have hfs := findSegments_single b idx is_row s e hse he hsingle
  constructor
  · intro hML
    simp only [overlapLine]
    rw [if_neg (by rw [hM]; omega)]
    rw [hfs]
    show (if 0 < get_clue b idx is_row - ((count_in_line b idx is_row).1 : Int) ∧
        get_clue b idx is_row - ((count_in_line b idx is_row).1 : Int) ≤
          (e : Int) - (s : Int) + 1 ∧
        get_clue b idx is_row - ((count_in_line b idx is_row).1 : Int) <
          (e : Int) - (s : Int) + 1 then _ else _) = _
    rw [hM]
    rw [if_pos ⟨by omega, by omega, by omega⟩]
    have h1 : (((e : Int) - (s : Int) + 1) - (M : Int)).toNat = e + 1 - s - M := by
      omega
    have h2 : ((M : Int) - 1 - (((e : Int) - (s : Int) + 1) - (M : Int)) + 1).toNat =
        M + M - (e + 1 - s) := by
      omega
    rw [h1, h2]
    apply filterMap_guard_map
      (fun seg_i => (lineCell b idx is_row (s + seg_i)).state = EMPTY)
    intro x hx
    rw [List.mem_range'] at hx
    obtain ⟨i2, hi2, rfl⟩ := hx
    simp only [one_mul]
    apply (hsingle (s + (e + 1 - s - M + i2)) (by omega)).mpr
    omega
  · intro hLM
    simp only [overlapLine]
    rw [if_neg (by rw [hM]; omega)]
    rw [hfs]
    show (if 0 < get_clue b idx is_row - ((count_in_line b idx is_row).1 : Int) ∧
        get_clue b idx is_row - ((count_in_line b idx is_row).1 : Int) ≤
          (e : Int) - (s : Int) + 1 ∧
        get_clue b idx is_row - ((count_in_line b idx is_row).1 : Int) <
          (e : Int) - (s : Int) + 1 then _ else _) = _
    rw [hM]
    rw [if_neg (by omega)]

theorem overlapLine_multi (b : PuzzleBoard) (idx : Nat) (is_row : Bool)
    (i0 j0 k0 : Nat) (hij : i0 < j0) (hjk : j0 < k0) (hk : k0 < b.dimension)
    (hi : (lineCell b idx is_row i0).state = EMPTY)
    (hj : (lineCell b idx is_row j0).state ≠ EMPTY)
    (hkk : (lineCell b idx is_row k0).state = EMPTY) :
    overlapLine b idx is_row = [] := by
  simp only [overlapLine]
  by_cases hneed :
    get_clue b idx is_row - ((count_in_line b idx is_row).1 : Int) ≤ 0
  · rw [if_pos hneed]
  · rw [if_neg hneed]
    cases hfs : findSegments b idx is_row with
    | nil => rfl
    | cons p tail =>
        cases tail with
        | nil =>
            exfalso
            exact findSegments_not_single b idx is_row i0 j0 k0 hij hjk hk
              hi hj hkk p.1 p.2 (by rw [hfs])
        | cons q tail2 => rfl

/-- Claim C8: characterization of the overlap rule T3.3.  `overlap_analysis`
is the concatenation of the per-line contributions; a line whose ships are
already sufficient (M = clue - ships ≤ 0) contributes nothing; a line whose
EMPTY cells form exactly one contiguous segment `[s, e]` of length
L = e + 1 - s with 0 < M contributes exactly the SHIP deductions at segment
indices L - M through M - 1 (all such cells are EMPTY, hence "still EMPTY")
when L > M, and nothing when L ≤ M; and a line with more than one empty
segment (two empties separated by a non-empty) contributes nothing. -/
theorem C8_overlap_characterization (b : PuzzleBoard) (idx : Nat)
    (is_row : Bool) :
    (overlap_analysis b = (List.range b.dimension).flatMap fun i =>
      [true, false].flatMap fun ir => overlapLine b i ir) ∧
    (get_clue b idx is_row - ((count_in_line b idx is_row).1 : Int) ≤ 0 →
      overlapLine b idx is_row = []) ∧
    (∀ s e M : Nat,
      (∀ i, i < b.dimension →
        ((lineCell b idx is_row i).state = EMPTY ↔ (s ≤ i ∧ i ≤ e))) →
      s ≤ e → e < b.dimension →
      get_clue b idx is_row - ((count_in_line b idx is_row).1 : Int) =
        (M : Int) →
      0 < M →
      (M < e + 1 - s →
        overlapLine b idx is_row =
          (List.range' (e + 1 - s - M) (M + M - (e + 1 - s))).map
            fun seg_i =>
              if is_row then make_deduction idx (s + seg_i) SHIP "T3.3" 3 6
              else make_deduction (s + seg_i) idx SHIP "T3.3" 3 6) ∧
      (e + 1 - s ≤ M → overlapLine b idx is_row = [])) ∧
    (∀ i0 j0 k0 : Nat, i0 < j0 → j0 < k0 → k0 < b.dimension →
      (lineCell b idx is_row i0).state = EMPTY →
      (lineCell b idx is_row j0).state ≠ EMPTY →
      (lineCell b idx is_row k0).state = EMPTY →
      overlapLine b idx is_row = []) := by
  refine ⟨rfl, overlapLine_nonpos b idx is_row, ?_, ?_⟩
  · intro s e M hsingle hse he hM hMpos
    exact overlapLine_single b idx is_row s e M hse he hsingle hM hMpos
  · intro i0 j0 k0 hij hjk hk hi hj hkk
    exact overlapLine_multi b idx is_row i0 j0 k0 hij hjk hk hi hj hkk

/-- Witness for C8 on a concrete line: row 0 of `boardOverlap` has the
single empty segment [0,4] with clue 4, and the rule emits exactly the
central cells (0,1), (0,2), (0,3). -/
theorem C8_witness :
    (∀ i, i < boardOverlap.dimension →
      ((lineCell boardOverlap 0 true i).state = EMPTY ↔ (0 ≤ i ∧ i ≤ 4))) ∧
    get_clue boardOverlap 0 true -
      ((count_in_line boardOverlap 0 true).1 : Int) = (4 : Int) ∧
    overlapLine boardOverlap 0 true =
      [make_deduction 0 1 SHIP "T3.3" 3 6, make_deduction 0 2 SHIP "T3.3" 3 6,
       make_deduction 0 3 SHIP "T3.3" 3 6] := by
  refine ⟨by decide, by decide, ?_⟩
  have h := (((C8_overlap_characterization boardOverlap 0 true).2.2).1
    0 4 4 (by decide) (by decide) (by decide) (by decide) (by decide)).1
    (by decide)
  rw [h]
  rfl

theorem mem_guard_filterMap {α : Type} {l : List α} {p : α → Prop}
    [DecidablePred p] {f : α → Deduction} {d : Deduction}
    (hd : d ∈ l.filterMap fun x => if p x then some (f x) else none) :
    ∃ x ∈ l, p x ∧ d = f x := by
  rw [List.mem_filterMap] at hd
  obtain ⟨x, hx, hfx⟩ := hd
  by_cases hpx : p x
  · rw [if_pos hpx] at hfx
    injection hfx with hh
    exact ⟨x, hx, hpx, hh.symm⟩
  · rw [if_neg hpx] at hfx
    cases hfx

theorem zero_clue_empty (b : PuzzleBoard) (d : Deduction)
    (hd : d ∈ zero_clue b) : (getCell b d.row d.col).state = EMPTY := by
  unfold zero_clue at hd
  rw [List.mem_flatMap] at hd
  obtain ⟨idx, _, hd⟩ := hd
  rw [List.mem_append] at hd
  rcases hd with hd | hd <;> [skip; skip] <;>
    [ (by_cases hz : b.row_counts.getD idx 0 = 0
       · rw [if_pos hz] at hd
         obtain ⟨c, _, hp, rfl⟩ := mem_guard_filterMap hd
         exact hp
       · rw [if_neg hz] at hd
         cases hd) ;
      (by_cases hz : b.col_counts.getD idx 0 = 0
       · rw [if_pos hz] at hd
         obtain ⟨r, _, hp, rfl⟩ := mem_guard_filterMap hd
         exact hp
       · rw [if_neg hz] at hd
         cases hd) ]

theorem mem_if_nil {c : Prop} [Decidable c] {l : List Deduction}
    {d : Deduction} (hd : d ∈ (if c then l else [])) : d ∈ l := by
  by_cases hc : c
  · rwa [if_pos hc] at hd
  · rw [if_neg hc] at hd
    cases hd

theorem satisfied_clue_empty (b : PuzzleBoard) (d : Deduction)
    (hd : d ∈ satisfied_clue b) : (getCell b d.row d.col).state = EMPTY := by
  unfold satisfied_clue at hd
  rw [List.mem_flatMap] at hd
  obtain ⟨idx, _, hd⟩ := hd
  rw [List.mem_flatMap] at hd
  obtain ⟨is_row, _, hd⟩ := hd
  obtain ⟨i, _, hp, rfl⟩ := mem_guard_filterMap (mem_if_nil hd)
  cases is_row <;> simpa [lineCell] using hp

theorem exact_fit_empty (b : PuzzleBoard) (d : Deduction)
    (hd : d ∈ exact_fit b) : (getCell b d.row d.col).state = EMPTY := by
  unfold exact_fit at hd
  rw [List.mem_flatMap] at hd
  obtain ⟨idx, _, hd⟩ := hd
  rw [List.mem_flatMap] at hd
  obtain ⟨is_row, _, hd⟩ := hd
  obtain ⟨i, _, hp, rfl⟩ := mem_guard_filterMap (mem_if_nil hd)
  cases is_row <;> simpa [lineCell] using hp

theorem diagonal_water_empty (b : PuzzleBoard) (d : Deduction)
    (hd : d ∈ diagonal_water b) : (getCell b d.row d.col).state = EMPTY := by
  unfold diagonal_water at hd
  rw [List.mem_flatMap] at hd
  obtain ⟨r, _, hd⟩ := hd
  rw [List.mem_flatMap] at hd
  obtain ⟨c, _, hd⟩ := hd
  obtain ⟨dir, _, hp, rfl⟩ := mem_guard_filterMap (mem_if_nil hd)
  exact hp.2

theorem overflow_prevention_empty (b : PuzzleBoard) (d : Deduction)
    (hd : d ∈ overflow_prevention b) : (getCell b d.row d.col).state = EMPTY := by
  simp only [overflow_prevention] at hd
  rw [List.mem_flatMap] at hd
  obtain ⟨r, _, hd⟩ := hd
  rw [List.mem_filterMap] at hd
  obtain ⟨c, _, hfx⟩ := hd
  by_cases h1 : (getCell b r c).state = EMPTY
  · rw [if_pos h1] at hfx
    split at hfx
    · injection hfx with hh
      subst hh
      exact h1
    · cases hfx
  · rw [if_neg h1] at hfx
    cases hfx

theorem hint_shape_deduction_empty (b : PuzzleBoard) (d : Deduction)
    (hd : d ∈ hint_shape_deduction b) :
    (getCell b d.row d.col).state = EMPTY := by
  simp only [hint_shape_deduction] at hd
  rw [List.mem_flatMap] at hd
  obtain ⟨r, _, hd⟩ := hd
  rw [List.mem_flatMap] at hd
  obtain ⟨c, _, hd⟩ := hd
  have hd2 := mem_if_nil hd
  split at hd2
  · cases hd2
  · rw [List.mem_filterMap] at hd2
    obtain ⟨entry, _, hfx⟩ := hd2
    by_cases h1 : within_bounds b ((r : Int) + entry.1.1) ((c : Int) + entry.1.2) = true ∧
        (getCell b ((r : Int) + entry.1.1).toNat ((c : Int) + entry.1.2).toNat).state = EMPTY
    · rw [if_pos h1] at hfx
      split at hfx
      · injection hfx with hh
        subst hh
        exact h1.2
      · split at hfx
        · injection hfx with hh
          subst hh
          exact h1.2
        · cases hfx
    · rw [if_neg h1] at hfx
      cases hfx

theorem classify_fold_empty (b : PuzzleBoard) (r c : Nat) :
    ∀ (dirs : List (Int × Int))
      (acc : List (Nat × Nat) × List (Nat × Nat) × Nat),
    (∀ x ∈ acc.2.1, (getCell b x.1 x.2).state = EMPTY) →
    ∀ x ∈ (dirs.foldl
      (fun acc d =>
        let nr : Int := (r : Int) + d.1
        let nc : Int := (c : Int) + d.2
        if ¬ within_bounds b nr nc then (acc.1, acc.2.1, acc.2.2 + 1)
        else if (getCell b nr.toNat nc.toNat).state = SHIP then
          (acc.1 ++ [(nr.toNat, nc.toNat)], acc.2.1, acc.2.2)
        else if (getCell b nr.toNat nc.toNat).state = SEA then
          (acc.1, acc.2.1, acc.2.2 + 1)
        else (acc.1, acc.2.1 ++ [(nr.toNat, nc.toNat)], acc.2.2)) acc).2.1,
      (getCell b x.1 x.2).state = EMPTY := by
  intro dirs
  induction dirs with
  | nil => intro acc hacc x hx; exact hacc x hx
  | cons dir rest ih =>
      intro acc hacc x hx
      rw [List.foldl_cons] at hx
      refine ih _ ?_ x hx
      intro y hy
      simp only at hy
      split at hy
      · exact hacc y hy
      · split at hy
        · exact hacc y hy
        · split at hy
          · exact hacc y hy
          · rw [List.mem_append] at hy
            rcases hy with hy | hy
            · exact hacc y hy
            · rw [List.mem_singleton] at hy
              subst hy
              rename_i hb hship hsea
              cases hst : (getCell b ((r : Int) + dir.1).toNat
                  ((c : Int) + dir.2).toNat).state with
              | EMPTY => rfl
              | SEA => exact absurd hst hsea
              | SHIP => exact absurd hst hship

theorem classifyOrtho_empty (b : PuzzleBoard) (r c : Nat) :
    ∀ x ∈ (classifyOrtho b r c).2.1, (getCell b x.1 x.2).state = EMPTY := by
  intro x hx
  refine classify_fold_empty b r c ORTHOGONAL ([], [], 0) ?_ x ?_
  · intro y hy
    cases hy
  · exact hx

theorem forced_extension_empty (b : PuzzleBoard) (d : Deduction)
    (hd : d ∈ forced_extension b) : (getCell b d.row d.col).state = EMPTY := by
  simp only [forced_extension] at hd
  rw [List.mem_flatMap] at hd
  obtain ⟨r, _, hd⟩ := hd
  rw [List.mem_flatMap] at hd
  obtain ⟨c, _, hd⟩ := hd
  have hd2 := mem_if_nil hd
  have hempty := classifyOrtho_empty b r c
  rw [List.mem_append] at hd2
  rcases hd2 with hd2 | hd2
  · rcases h1 : (classifyOrtho b r c).1 with _ | ⟨sn, tl1⟩
    · rw [h1] at hd2
      cases hd2
    · rcases htl1 : tl1 with _ | ⟨y1, t1⟩
      · subst htl1
        rcases h2 : (classifyOrtho b r c).2.1 with _ | ⟨en, tl2⟩
        · rw [h1, h2] at hd2
          cases hd2
        · rcases htl2 : tl2 with _ | ⟨y2, t2⟩
          · subst htl2
            rw [h1, h2] at hd2
            have hd3 := mem_if_nil hd2
            rw [List.mem_singleton] at hd3
            subst hd3
            exact hempty en (by rw [h2]; exact List.mem_singleton_self _)
          · subst htl2
            rw [h1, h2] at hd2
            cases hd2
      · subst htl1
        rw [h1] at hd2
        cases hd2
  · rcases h2 : (classifyOrtho b r c).2.1 with _ | ⟨en, tl2⟩
    · rw [h2] at hd2
      cases hd2
    · rcases htl2 : tl2 with _ | ⟨y2, t2⟩
      · subst htl2
        rw [h2] at hd2
        have hd3 := mem_if_nil hd2
        rw [List.mem_singleton] at hd3
        subst hd3
        exact hempty en (by rw [h2]; exact List.mem_singleton_self _)
      · subst htl2
        rw [h2] at hd2
        cases hd2

theorem classifyBlocked_fold_empty (b : PuzzleBoard) (r c : Nat) :
    ∀ (dirs : List (Int × Int)) (acc : List (Int × Int) × List (Nat × Nat)),
    (∀ x ∈ acc.2, (getCell b x.1 x.2).state = EMPTY) →
    ∀ x ∈ (dirs.foldl
      (fun acc d =>
        let nr : Int := (r : Int) + d.1
        let nc : Int := (c : Int) + d.2
        if ¬ within_bounds b nr nc then (acc.1 ++ [d], acc.2)
        else if (getCell b nr.toNat nc.toNat).state = SEA then (acc.1 ++ [d], acc.2)
        else if (getCell b nr.toNat nc.toNat).state = EMPTY then
          (acc.1, acc.2 ++ [(nr.toNat, nc.toNat)])
        else acc) acc).2,
      (getCell b x.1 x.2).state = EMPTY := by
  intro dirs
  induction dirs with
  | nil => intro acc hacc x hx; exact hacc x hx
  | cons dir rest ih =>
      intro acc hacc x hx
      rw [List.foldl_cons] at hx
      refine ih _ ?_ x hx
      intro y hy
      simp only at hy
      split at hy
      · exact hacc y hy
      · split at hy
        · exact hacc y hy
        · split at hy
          · rw [List.mem_append] at hy
            rcases hy with hy | hy
            · exact hacc y hy
            · rw [List.mem_singleton] at hy
              subst hy
              rename_i hemp
              exact hemp
          · exact hacc y hy

theorem three_blocked_sides_empty (b : PuzzleBoard) (d : Deduction)
    (hd : d ∈ three_blocked_sides b) : (getCell b d.row d.col).state = EMPTY := by
  simp only [three_blocked_sides] at hd
  rw [List.mem_flatMap] at hd
  obtain ⟨r, _, hd⟩ := hd
  rw [List.mem_flatMap] at hd
  obtain ⟨c, _, hd⟩ := hd
  have hd2 := mem_if_nil hd
  have hempty : ∀ x ∈ (classifyBlocked b r c).2,
      (getCell b x.1 x.2).state = EMPTY := by
    intro x hx
    refine classifyBlocked_fold_empty b r c ORTHOGONAL ([], []) ?_ x ?_
    · intro y hy
      cases hy
    · exact hx
  rcases h2 : (classifyBlocked b r c).2 with _ | ⟨oc, tl2⟩
  · rw [h2] at hd2
    cases hd2
  · rcases htl2 : tl2 with _ | ⟨y2, t2⟩
    · subst htl2
      rw [h2] at hd2
      have hd3 := mem_if_nil hd2
      rw [List.mem_singleton] at hd3
      subst hd3
      exact hempty oc (by rw [h2]; exact List.mem_singleton_self _)
    · subst htl2
      rw [h2] at hd2
      cases hd2

theorem overlap_analysis_empty (b : PuzzleBoard) (d : Deduction)
    (hd : d ∈ overlap_analysis b) : (getCell b d.row d.col).state = EMPTY := by
  unfold overlap_analysis at hd
  rw [List.mem_flatMap] at hd
  obtain ⟨idx, _, hd⟩ := hd
  rw [List.mem_flatMap] at hd
  obtain ⟨is_row, _, hd⟩ := hd
  simp only [overlapLine] at hd
  by_cases hc : get_clue b idx is_row -
      ((count_in_line b idx is_row).1 : Int) ≤ 0
  case pos =>
    rw [if_pos hc] at hd
    cases hd
  case neg =>
  rw [if_neg hc] at hd
  have hd2 := hd
  rcases hfs : findSegments b idx is_row with _ | ⟨p, tail⟩
  · rw [hfs] at hd2
    cases hd2
  · rcases htail : tail with _ | ⟨q, t2⟩
    · subst htail
      rw [hfs] at hd2
      have hd3 := mem_if_nil hd2
      obtain ⟨seg_i, _, hp, rfl⟩ := mem_guard_filterMap hd3
      cases is_row <;> simpa [lineCell] using hp
    · subst htail
      rw [hfs] at hd2
      cases hd2

theorem gapScanAux_empty (b : PuzzleBoard) (idx : Nat) (is_row : Bool)
    (smallest : Nat) :
    ∀ (n i0 : Nat) (gs : Option Nat),
    (∀ s, gs = some s → ∀ t, s ≤ t → t < i0 →
      (lineCell b idx is_row t).state = EMPTY) →
    ∀ d ∈ gapScanAux b idx is_row smallest (List.range' i0 n) gs,
      (getCell b d.row d.col).state = EMPTY := by
  intro n
  induction n with
  | zero => intro i0 gs _ d hd; cases hd
  | succ m ih =>
      intro i0 gs hinv d hd
      rw [List.range'_succ] at hd
      have hhead : ∀ t, t = i0 →
          (if i0 < b.dimension then (lineCell b idx is_row i0).state else SEA) =
            EMPTY → (lineCell b idx is_row t).state = EMPTY := by
        intro t ht hst
        subst ht
        by_cases hdim : t < b.dimension
        · rwa [if_pos hdim] at hst
        · rw [if_neg hdim] at hst
          cases hst
      cases gs with
      | none =>
          simp only [gapScanAux] at hd
          by_cases hst : (if i0 < b.dimension then
              (lineCell b idx is_row i0).state else SEA) = EMPTY
          · rw [if_pos hst] at hd
            refine ih (i0 + 1) (some i0) ?_ d hd
            intro s hs t hts hti
            injection hs with hh
            subst hh
            exact hhead t (by omega) hst
          · rw [if_neg hst] at hd
            exact ih (i0 + 1) none (fun s hs => Option.noConfusion hs) d hd
      | some s =>
          simp only [gapScanAux] at hd
          by_cases hst : (if i0 < b.dimension then
              (lineCell b idx is_row i0).state else SEA) = EMPTY
          · rw [if_pos hst] at hd
            refine ih (i0 + 1) (some s) ?_ d hd
            intro s2 hs2 t hts hti
            injection hs2 with hh
            subst hh
            by_cases hti0 : t < i0
            · exact hinv s rfl t hts hti0
            · exact hhead t (by omega) hst
          · rw [if_neg hst] at hd
            rw [List.mem_append] at hd
            rcases hd with hd | hd
            · have hd2 := mem_if_nil hd
              rw [List.mem_map] at hd2
              obtain ⟨gc, hgc, rfl⟩ := hd2
              rw [List.mem_range'] at hgc
              obtain ⟨i2, hi2, rfl⟩ := hgc
              have hemp := hinv s rfl (s + 1 * i2) (by omega) (by omega)
              cases is_row <;> simpa [lineCell] using hemp
            · exact ih (i0 + 1) none (fun s2 hs2 => Option.noConfusion hs2) d hd

theorem gap_analysis_empty (b : PuzzleBoard) (d : Deduction)
    (hd : d ∈ gap_analysis b) : (getCell b d.row d.col).state = EMPTY := by
  unfold gap_analysis at hd
  cases hrem : get_remaining_ships b with
  | nil => rw [hrem] at hd; cases hd
  | cons x xs =>
      rw [hrem] at hd
      rw [List.mem_append] at hd
      rcases hd with hd | hd <;>
        · rw [List.mem_flatMap] at hd
          obtain ⟨idx, _, hd⟩ := hd
          rw [List.range_eq_range'] at hd
          exact gapScanAux_empty b _ _ _ (b.dimension + 1) 0 none
            (fun s hs => Option.noConfusion hs) d hd

theorem feScanAux_empty (b : PuzzleBoard) (idx : Nat) (is_row : Bool)
    (length : Nat) :
    ∀ (positions : List Nat) (rs : Option Nat) (rl : Nat),
    ∀ d ∈ feScanAux b idx is_row length positions rs rl,
      (getCell b d.row d.col).state = EMPTY := by
  intro positions
  induction positions with
  | nil => intro rs rl d hd; cases hd
  | cons i rest ih =>
      intro rs rl d hd
      simp only [feScanAux] at hd
      by_cases hst : (if i < b.dimension then (lineCell b idx is_row i).state
          else SEA) = SHIP
      · rw [if_pos hst] at hd
        exact ih _ _ d hd
      · rw [if_neg hst] at hd
        rw [List.mem_append] at hd
        rcases hd with hd | hd
        · cases rs with
          | none => cases hd
          | some s =>
              have hd2 := mem_if_nil (mem_if_nil hd)
              rw [List.mem_append] at hd2
              rcases hd2 with hd2 | hd2
              · have hd3 := mem_if_nil hd2
                rw [List.mem_singleton] at hd3
                subst hd3
                have hguard : (0 < s ∧
                    (lineCell b idx is_row (s - 1)).state = EMPTY) ∧
                    rl + 1 = length := by
                  by_cases hg : (0 < s ∧
                      (lineCell b idx is_row (s - 1)).state = EMPTY) ∧
                      rl + 1 = length
                  · exact hg
                  · rw [if_neg hg] at hd2
                    cases hd2
                cases is_row <;> simpa [lineCell] using hguard.1.2
              · have hd3 := mem_if_nil hd2
                rw [List.mem_singleton] at hd3
                subst hd3
                have hguard : (i < b.dimension ∧
                    (if i < b.dimension then (lineCell b idx is_row i).state
                      else SEA) = EMPTY) ∧ rl + 1 = length := by
                  by_cases hg : (i < b.dimension ∧
                      (if i < b.dimension then (lineCell b idx is_row i).state
                        else SEA) = EMPTY) ∧ rl + 1 = length
                  · exact hg
                  · rw [if_neg hg] at hd2
                    cases hd2
                have hstate := hguard.1.2
                rw [if_pos hguard.1.1] at hstate
                cases is_row <;> simpa [lineCell] using hstate
        · exact ih _ _ d hd

theorem mem_nil_if {c : Prop} [Decidable c] {l : List Deduction}
    {d : Deduction} (hd : d ∈ (if c then [] else l)) : d ∈ l := by
  by_cases hc : c
  · rw [if_pos hc] at hd
    cases hd
  · rwa [if_neg hc] at hd

theorem fleet_exhaustion_empty (b : PuzzleBoard) (d : Deduction)
    (hd : d ∈ fleet_exhaustion b) : (getCell b d.row d.col).state = EMPTY := by
  unfold fleet_exhaustion at hd
  rw [List.mem_flatMap] at hd
  obtain ⟨length, _, hd⟩ := hd
  rw [List.mem_append] at hd
  rcases hd with hd | hd <;>
    · rw [List.mem_flatMap] at hd
      obtain ⟨idx, _, hd⟩ := hd
      exact feScanAux_empty b _ _ _ _ _ _ d hd

theorem capScanAux_empty (b : PuzzleBoard) (idx : Nat) (is_row : Bool)
    (max_size : Nat) :
    ∀ (positions : List Nat) (rs : Option Nat) (rl : Nat),
    ∀ d ∈ capScanAux b idx is_row max_size positions rs rl,
      (getCell b d.row d.col).state = EMPTY := by
  intro positions
  induction positions with
  | nil => intro rs rl d hd; cases hd
  | cons i rest ih =>
      intro rs rl d hd
      simp only [capScanAux] at hd
      by_cases hst : (if i = b.dimension then SEA
          else (lineCell b idx is_row i).state) = SHIP
      · rw [if_pos hst] at hd
        exact ih _ _ d hd
      · rw [if_neg hst] at hd
        rw [List.mem_append] at hd
        rcases hd with hd | hd
        · have hd2 := mem_if_nil hd
          cases rs with
          | none => cases hd2
          | some s =>
              rw [List.mem_append] at hd2
              rcases hd2 with hd2 | hd2
              · have hguard : 0 < s ∧
                    (lineCell b idx is_row (s - 1)).state = EMPTY := by
                  by_cases hg : 0 < s ∧
                      (lineCell b idx is_row (s - 1)).state = EMPTY
                  · exact hg
                  · rw [if_neg hg] at hd2
                    cases hd2
                rw [if_pos hguard] at hd2
                rw [List.mem_singleton] at hd2
                subst hd2
                cases is_row <;> simpa [lineCell] using hguard.2
              · have hguard : s + rl < b.dimension ∧
                    (lineCell b idx is_row (s + rl)).state = EMPTY := by
                  by_cases hg : s + rl < b.dimension ∧
                      (lineCell b idx is_row (s + rl)).state = EMPTY
                  · exact hg
                  · rw [if_neg hg] at hd2
                    cases hd2
                rw [if_pos hguard] at hd2
                rw [List.mem_singleton] at hd2
                subst hd2
                cases is_row <;> simpa [lineCell] using hguard.2
        · exact ih _ _ d hd

theorem cap_ship_empty (b : PuzzleBoard) (d : Deduction)
    (hd : d ∈ cap_ship b) : (getCell b d.row d.col).state = EMPTY := by
  unfold cap_ship at hd
  have hd2 := mem_nil_if hd
  rw [List.mem_append] at hd2
  rcases hd2 with hd2 | hd2 <;>
    · rw [List.mem_flatMap] at hd2
      obtain ⟨idx, _, hd2⟩ := hd2
      exact capScanAux_empty b _ _ _ _ _ _ d hd2

theorem prevent_long_join_empty (b : PuzzleBoard) (d : Deduction)
    (hd : d ∈ prevent_long_join b) : (getCell b d.row d.col).state = EMPTY := by
  simp only [prevent_long_join] at hd
  have hd2 := mem_nil_if hd
  rw [List.mem_flatMap] at hd2
  obtain ⟨r, _, hd2⟩ := hd2
  rw [List.mem_filterMap] at hd2
  obtain ⟨c, _, hfx⟩ := hd2
  by_cases h1 : (getCell b r c).state = EMPTY
  · rw [if_pos h1] at hfx
    split at hfx
    · injection hfx with hh
      subst hh
      exact h1
    · split at hfx
      · injection hfx with hh
        subst hh
        exact h1
      · cases hfx
  · rw [if_neg h1] at hfx
    cases hfx

theorem empties_list_empty (b : PuzzleBoard) (rc : Nat × Nat)
    (hrc : rc ∈ empties_list b) : (getCell b rc.1 rc.2).state = EMPTY := by
  unfold empties_list at hrc
  rw [List.mem_flatMap] at hrc
  obtain ⟨r, _, hrc⟩ := hrc
  rw [List.mem_filterMap] at hrc
  obtain ⟨c, _, hfx⟩ := hrc
  by_cases h1 : (getCell b r c).state = EMPTY
  · rw [if_pos h1] at hfx
    injection hfx with hh
    subst hh
    exact h1
  · rw [if_neg h1] at hfx
    cases hfx

theorem nwLoop_empty (b : PuzzleBoard) :
    ∀ (cells : List (Nat × Nat)) (prop : PropState) (acc : List Deduction),
    (∀ d ∈ acc, (getCell b d.row d.col).state = EMPTY) →
    (∀ rc ∈ cells, (getCell b rc.1 rc.2).state = EMPTY) →
    ∀ d ∈ (nwLoop prop acc cells).1, (getCell b d.row d.col).state = EMPTY := by
  intro cells
  induction cells with
  | nil => intro prop acc hacc _ d hd; exact hacc d hd
  | cons rc rest ih =>
      intro prop acc hacc hcells d hd
      simp only [nwLoop] at hd
      refine ih _ _ ?_ (fun x hx => hcells x (List.mem_cons_of_mem _ hx)) d hd
      intro d2 hd2
      by_cases hr : (test_ship prop rc.1 rc.2).1 = true
      · rw [if_pos hr] at hd2
        rw [List.mem_append] at hd2
        rcases hd2 with hd2 | hd2
        · exact hacc d2 hd2
        · rw [List.mem_singleton] at hd2
          subst hd2
          exact hcells rc (List.mem_cons_self _ _)
      · rw [if_neg hr] at hd2
        exact hacc d2 hd2

theorem naked_water_empty (b : PuzzleBoard) (d : Deduction)
    (hd : d ∈ (naked_water b).1) : (getCell b d.row d.col).state = EMPTY := by
  unfold naked_water at hd
  exact nwLoop_empty b (empties_list b) (initProp b) []
    (fun x hx => by cases hx) (fun rc hrc => empties_list_empty b rc hrc) d hd

theorem nsLoop_empty (b : PuzzleBoard) :
    ∀ (cells : List (Nat × Nat)) (prop : PropState) (acc : List Deduction),
    (∀ d ∈ acc, (getCell b d.row d.col).state = EMPTY) →
    (∀ rc ∈ cells, (getCell b rc.1 rc.2).state = EMPTY) →
    ∀ d ∈ (nsLoop prop acc cells).1, (getCell b d.row d.col).state = EMPTY := by
  intro cells
  induction cells with
  | nil => intro prop acc hacc _ d hd; exact hacc d hd
  | cons rc rest ih =>
      intro prop acc hacc hcells d hd
      simp only [nsLoop] at hd
      refine ih _ _ ?_ (fun x hx => hcells x (List.mem_cons_of_mem _ hx)) d hd
      intro d2 hd2
      by_cases hr : (test_water prop rc.1 rc.2).1 = true
      · rw [if_pos hr] at hd2
        rw [List.mem_append] at hd2
        rcases hd2 with hd2 | hd2
        · exact hacc d2 hd2
        · rw [List.mem_singleton] at hd2
          subst hd2
          exact hcells rc (List.mem_cons_self _ _)
      · rw [if_neg hr] at hd2
        exact hacc d2 hd2

theorem naked_ship_empty (b : PuzzleBoard) (d : Deduction)
    (hd : d ∈ (naked_ship b).1) : (getCell b d.row d.col).state = EMPTY := by
  unfold naked_ship at hd
  exact nsLoop_empty b (empties_list b) (initProp b) []
    (fun x hx => by cases hx) (fun rc hrc => empties_list_empty b rc hrc) d hd

theorem rules_empty (t : Nat) (x : String × Nat ×
    (PuzzleBoard → List Deduction × PuzzleBoard)) (hx : x ∈ RULES t)
    (b : PuzzleBoard) (d : Deduction) (hd : d ∈ (x.2.2 b).1) :
    (getCell b d.row d.col).state = EMPTY := by
  rcases t with _ | _ | _ | _ | _ | _ | t
  · simp [RULES] at hx
  · simp [RULES] at hx
    rcases hx with rfl | rfl | rfl | rfl
    · exact zero_clue_empty b d hd
    · exact satisfied_clue_empty b d hd
    · exact diagonal_water_empty b d hd
    · exact hint_shape_deduction_empty b d hd
  · simp [RULES] at hx
    rcases hx with rfl | rfl
    · exact exact_fit_empty b d hd
    · exact overflow_prevention_empty b d hd
  · simp [RULES] at hx
    rcases hx with rfl | rfl | rfl
    · exact forced_extension_empty b d hd
    · exact overlap_analysis_empty b d hd
    · exact three_blocked_sides_empty b d hd
  · simp [RULES] at hx
    rcases hx with rfl | rfl | rfl | rfl
    · exact gap_analysis_empty b d hd
    · exact fleet_exhaustion_empty b d hd
    · exact cap_ship_empty b d hd
    · exact prevent_long_join_empty b d hd
  · simp [RULES] at hx
    rcases hx with rfl | rfl
    · exact naked_water_empty b d hd
    · exact naked_ship_empty b d hd
  · simp [RULES] at hx

theorem setState_length (b : PuzzleBoard) (r c : Nat) (v : CellState) :
    (setState b r c v).cells.length = b.cells.length := by
  simp [setState]

theorem setState_rowlen (b : PuzzleBoard) (r c : Nat) (v : CellState)
    (r2 : Nat) :
    ((setState b r c v).cells.getD r2 []).length =
      (b.cells.getD r2 []).length := by
  unfold setState
  by_cases hr : r2 = r
  · subst hr
    by_cases hlen : r2 < b.cells.length
    · rw [getD_set_self _ _ _ _ hlen]
      simp
    · rw [List.set_eq_of_length_le (Nat.le_of_not_lt hlen)]
  · rw [getD_set_ne _ _ _ _ _ (fun hh => hr hh.symm)]

theorem getCell_setState_fields (b : PuzzleBoard) (r c : Nat) (v : CellState)
    (r2 c2 : Nat) :
    (getCell (setState b r c v) r2 c2).row = (getCell b r2 c2).row ∧
    (getCell (setState b r c v) r2 c2).col = (getCell b r2 c2).col ∧
    (getCell (setState b r c v) r2 c2).solution = (getCell b r2 c2).solution ∧
    (getCell (setState b r c v) r2 c2).hint_shape =
      (getCell b r2 c2).hint_shape ∧
    (getCell (setState b r c v) r2 c2).is_hint = (getCell b r2 c2).is_hint := by
  unfold getCell setState
  by_cases hr : r2 = r
  · subst hr
    by_cases hlen : r2 < b.cells.length
    · rw [getD_set_self _ _ _ _ hlen]
      by_cases hc : c2 = c
      · subst hc
        by_cases hclen : c2 < (b.cells.getD r2 []).length
        · rw [getD_set_self _ _ _ _ hclen]
          exact ⟨rfl, rfl, rfl, rfl, rfl⟩
        · rw [List.set_eq_of_length_le (Nat.le_of_not_lt hclen)]
          exact ⟨rfl, rfl, rfl, rfl, rfl⟩
      · rw [getD_set_ne _ _ _ _ _ (fun hh => hc hh.symm)]
        exact ⟨rfl, rfl, rfl, rfl, rfl⟩
    · rw [List.set_eq_of_length_le (Nat.le_of_not_lt hlen)]
      exact ⟨rfl, rfl, rfl, rfl, rfl⟩
  · rw [getD_set_ne _ _ _ _ _ (fun hh => hr hh.symm)]
    exact ⟨rfl, rfl, rfl, rfl, rfl⟩

theorem skel_setState (b bq : PuzzleBoard) (r c : Nat) (v : CellState)
    (h : SameSkel b bq) : SameSkel b (setState bq r c v) := by
  obtain ⟨h1, h2, h3, h4, h5, h6, h7⟩ := h
  refine ⟨h1, h2, h3, h4, ?_, ?_, ?_⟩
  · rw [setState_length]
    exact h5
  · intro r2
    rw [setState_rowlen]
    exact h6 r2
  · intro r2 c2
    obtain ⟨f1, f2, f3, f4, _⟩ := getCell_setState_fields bq r c v r2 c2
    exact ⟨f1.trans (h7 r2 c2).1, f2.trans (h7 r2 c2).2.1,
      f3.trans (h7 r2 c2).2.2.1, f4.trans (h7 r2 c2).2.2.2⟩

theorem skel_propSetSea (b : PuzzleBoard) (st : PropState) (rr cc : Nat)
    (h : SameSkel b st.board) : SameSkel b (propSetSea st rr cc).board :=
  skel_setState b st.board rr cc SEA h

theorem skel_propSetShip (b : PuzzleBoard) (st : PropState) (rr cc : Nat)
    (h : SameSkel b st.board) : SameSkel b (propSetShip st rr cc).board :=
  skel_setState b st.board rr cc SHIP h

theorem diagCascade_skel (b : PuzzleBoard) :
    ∀ (dirs : List (Int × Int)) (st : PropState) (dirty : List (Bool × Nat))
      (rr cc : Nat), SameSkel b st.board →
    SameSkel b (diagCascade st dirty rr cc dirs).1.board := by
  intro dirs
  induction dirs with
  | nil => intro st dirty rr cc h; exact h
  | cons dd rest ih =>
      intro st dirty rr cc h
      simp only [diagCascade]
      split
      · split
        · split
          · split
            · exact ih _ _ _ _ (skel_propSetSea b st _ _ h)
            · exact h
          · exact ih _ _ _ _ (skel_propSetSea b st _ _ h)
        · exact ih _ _ _ _ h
      · exact ih _ _ _ _ h

theorem fillSeaLoop_skel (b : PuzzleBoard) (is_row : Bool) (idx : Nat) :
    ∀ (l : List Nat) (st : PropState) (dirty : List (Bool × Nat)),
    SameSkel b st.board →
    SameSkel b (fillSeaLoop st dirty is_row idx l).1.board := by
  intro l
  induction l with
  | nil => intro st dirty h; exact h
  | cons i rest ih =>
      intro st dirty h
      simp only [fillSeaLoop]
      repeat' split
      all_goals
        first
          | exact h
          | exact ih _ _ h
          | exact ih _ _ (skel_propSetSea b st _ _ h)

theorem fillShipLoop_skel (b : PuzzleBoard) (is_row : Bool) (idx : Nat) :
    ∀ (l : List Nat) (st : PropState) (dirty : List (Bool × Nat))
      (contr : Bool), SameSkel b st.board →
    SameSkel b (fillShipLoop st dirty is_row idx contr l).1.board := by
  intro l
  induction l with
  | nil => intro st dirty contr h; exact h
  | cons i rest ih =>
      intro st dirty contr h
      simp only [fillShipLoop]
      repeat' split
      all_goals
        first
          | exact h
          | exact ih _ _ _ h
          | exact ih _ _ _ (diagCascade_skel b _ _ _ _ _
              (skel_propSetShip b st _ _ h))

theorem propLoop_skel (b : PuzzleBoard) :
    ∀ (fuel : Nat) (st : PropState) (dirty : List (Bool × Nat)),
    SameSkel b st.board → SameSkel b (propLoop st dirty fuel).1.board := by
  intro fuel
  induction fuel with
  | zero => intro st dirty h; exact h
  | succ f ih =>
      intro st dirty h
      simp only [propLoop]
      repeat' split
      all_goals
        first
          | exact h
          | exact ih _ _ h
          | exact fillSeaLoop_skel b _ _ _ _ _ h
          | exact ih _ _ (fillSeaLoop_skel b _ _ _ _ _ h)
          | exact fillShipLoop_skel b _ _ _ _ _ _ h
          | exact ih _ _ (fillShipLoop_skel b _ _ _ _ _ _ h)

theorem test_ship_skel (b : PuzzleBoard) (st : PropState) (r c : Nat)
    (h : SameSkel b st.board) :
    SameSkel b (test_ship st r c).2.board := by
  have hcasc := diagCascade_skel b DIAGONAL (propSetShip st r c)
    [(true, r), (false, c)] r c (skel_propSetShip b st r c h)
  have hbody : SameSkel b (test_ship_body st r c).2.board := by
    simp only [test_ship_body]
    repeat' split
    all_goals
      first
        | exact hcasc
        | exact propLoop_skel b 200 _ _ hcasc
  unfold test_ship
  repeat' split
  all_goals
    first
      | exact hbody
      | exact h

theorem test_water_skel (b : PuzzleBoard) (st : PropState) (r c : Nat)
    (h : SameSkel b st.board) :
    SameSkel b (test_water st r c).2.board := by
  have hprop := propLoop_skel b 200 (propSetSea st r c) [(true, r), (false, c)]
    (skel_propSetSea b st r c h)
  have hbody : SameSkel b (test_water_body st r c).2.board := by
    simp only [test_water_body]
    repeat' split
    all_goals exact hprop
  unfold test_water
  repeat' split
  all_goals
    first
      | exact hbody
      | exact h

theorem nwLoop_board (b : PuzzleBoard) (hwf : wf_board b = true)
    (hres : hints_resolved b = true) :
    ∀ (cells : List (Nat × Nat)) (acc : List Deduction),
    (nwLoop (initProp b) acc cells).2 = b := by
  intro cells
  induction cells with
  | nil => intro acc; rfl
  | cons rc rest ih =>
      intro acc
      simp only [nwLoop]
      have hskel : SameSkel b (test_ship (initProp b) rc.1 rc.2).2.board :=
        test_ship_skel b (initProp b) rc.1 rc.2 (sameSkel_refl b)
      have hrt : restore_snapshot (test_ship (initProp b) rc.1 rc.2).2.board
          (get_snapshot (initProp b).board) = b := by
        show restore_snapshot _ (get_snapshot b) = b
        exact restore_roundtrip b _ hwf hres hskel
      rw [hrt]
      exact ih _

theorem naked_water_board (b : PuzzleBoard) (hwf : wf_board b = true)
    (hres : hints_resolved b = true) : (naked_water b).2 = b := by
  unfold naked_water
  exact nwLoop_board b hwf hres (empties_list b) []

theorem nsLoop_board (b : PuzzleBoard) (hwf : wf_board b = true)
    (hres : hints_resolved b = true) :
    ∀ (cells : List (Nat × Nat)) (acc : List Deduction),
    (nsLoop (initProp b) acc cells).2 = b := by
  intro cells
  induction cells with
  | nil => intro acc; rfl
  | cons rc rest ih =>
      intro acc
      simp only [nsLoop]
      have hskel : SameSkel b (test_water (initProp b) rc.1 rc.2).2.board :=
        test_water_skel b (initProp b) rc.1 rc.2 (sameSkel_refl b)
      have hrt : restore_snapshot (test_water (initProp b) rc.1 rc.2).2.board
          (get_snapshot (initProp b).board) = b := by
        show restore_snapshot _ (get_snapshot b) = b
        exact restore_roundtrip b _ hwf hres hskel
      rw [hrt]
      exact ih _

theorem naked_ship_board (b : PuzzleBoard) (hwf : wf_board b = true)
    (hres : hints_resolved b = true) : (naked_ship b).2 = b := by
  unfold naked_ship
  exact nsLoop_board b hwf hres (empties_list b) []

theorem rules_pure (t : Nat) (x : String × Nat ×
    (PuzzleBoard → List Deduction × PuzzleBoard)) (hx : x ∈ RULES t)
    (b : PuzzleBoard) (hwf : wf_board b = true)
    (hres : hints_resolved b = true) : (x.2.2 b).2 = b := by
  rcases t with _ | _ | _ | _ | _ | _ | t
  · simp [RULES] at hx
  · simp [RULES] at hx
    rcases hx with rfl | rfl | rfl | rfl <;> rfl
  · simp [RULES] at hx
    rcases hx with rfl | rfl <;> rfl
  · simp [RULES] at hx
    rcases hx with rfl | rfl | rfl <;> rfl
  · simp [RULES] at hx
    rcases hx with rfl | rfl | rfl | rfl <;> rfl
  · simp [RULES] at hx
    rcases hx with rfl | rfl
    · exact naked_water_board b hwf hres
    · exact naked_ship_board b hwf hres
  · simp [RULES] at hx

theorem mem_filter_diagonal_conflicts (bb : PuzzleBoard)
    (deds : List Deduction) (d : Deduction)
    (hd : d ∈ filter_diagonal_conflicts bb deds) : d ∈ deds := by
  simp only [filter_diagonal_conflicts] at hd
  split at hd
  · exact hd
  · exact (List.mem_filter.mp hd).1

theorem applyTierRules_spec (b : PuzzleBoard)
    (applied : List (Nat × Nat × CellState)) :
    ∀ (rules : List (String × Nat ×
      (PuzzleBoard → List Deduction × PuzzleBoard))),
    (∀ x ∈ rules, (x.2.2 b).2 = b ∧
      ∀ d ∈ (x.2.2 b).1, (getCell b d.row d.col).state = EMPTY) →
    (applyTierRules b applied rules).2 = b ∧
    ∀ d ∈ (applyTierRules b applied rules).1,
      (getCell b d.row d.col).state = EMPTY := by
  intro rules
  induction rules with
  | nil => intro _; exact ⟨rfl, fun d hd => by cases hd⟩
  | cons x rest ih =>
      intro hall
      have hx := hall x (List.mem_cons_self _ _)
      simp only [applyTierRules]
      rw [hx.1]
      split
      · exact ih (fun y hy => hall y (List.mem_cons_of_mem _ hy))
      · refine ⟨rfl, fun d hd => ?_⟩
        have hd2 := mem_filter_diagonal_conflicts b _ d hd
        exact hx.2 d (List.mem_filter.mp hd2).1

theorem tryTiers_spec (b : PuzzleBoard) (hwf : wf_board b = true)
    (hres : hints_resolved b = true)
    (applied : List (Nat × Nat × CellState)) :
    ∀ (ts : List Nat),
    (tryTiers b applied ts).2 = b ∧
    ∀ t deds eb, (tryTiers b applied ts).1 = some (t, deds, eb) →
      ∀ d ∈ deds, (getCell b d.row d.col).state = EMPTY := by
  intro ts
  induction ts with
  | nil => exact ⟨rfl, fun t deds eb hsome => by cases hsome⟩
  | cons t0 rest ih =>
      have hat := applyTierRules_spec b applied (RULES t0)
        (fun x hx => ⟨rules_pure t0 x hx b hwf hres,
          fun d hd => rules_empty t0 x hx b d hd⟩)
      simp only [tryTiers]
      rw [hat.1]
      split
      · exact ih
      · refine ⟨rfl, fun t deds eb hsome => ?_⟩
        injection hsome with hh
        injection hh with hh1 hh2
        injection hh2 with hh3 hh4
        subst hh3
        exact fun d hd => hat.2 d hd

/-- Claim C7 (amended): every deduction any registered rule returns targets
a cell that is EMPTY in the board the rule received (this part holds for
every board), and — provided the board is well-formed with resolved
(non-EMPTY) hint cells — every rule leaves the board unchanged, so every
deduction in the batch the driver selects and applies targets a cell that
is EMPTY in the board at the start of the batch application.  (Without the
resolved-hints proviso a Tier-5 rule's snapshot/restore can move an EMPTY
hint cell to SEA, refuting the claim's second half; see the
counterexample.) -/
theorem C7_amended_empty_targets (b : PuzzleBoard) (hwf : wf_board b = true)
    (hres : hints_resolved b = true) :
    (∀ (t : Nat) (rule : String × Nat ×
        (PuzzleBoard → List Deduction × PuzzleBoard)), rule ∈ RULES t →
      ∀ d ∈ (rule.2.2 b).1, (getCell b d.row d.col).state = EMPTY) ∧
    (∀ (applied : List (Nat × Nat × CellState)) (t : Nat),
      (applyTierRules b applied (RULES t)).2 = b ∧
      ∀ d ∈ (applyTierRules b applied (RULES t)).1,
        (getCell b d.row d.col).state = EMPTY) ∧
    (∀ (applied : List (Nat × Nat × CellState)) (ts : List Nat),
      (tryTiers b applied ts).2 = b ∧
      ∀ t deds eb, (tryTiers b applied ts).1 = some (t, deds, eb) →
        ∀ d ∈ deds, (getCell b d.row d.col).state = EMPTY) := by
  refine ⟨fun t rule hrule d hd => rules_empty t rule hrule b d hd,
    fun applied t => ?_, fun applied ts => tryTiers_spec b hwf hres applied ts⟩
  exact applyTierRules_spec b applied (RULES t)
    (fun x hx => ⟨rules_pure t x hx b hwf hres,
      fun d hd => rules_empty t x hx b d hd⟩)

/-- Witness for C7 (amended) at a concrete well-formed board. -/
theorem C7_witness :
    wf_board boardOverlap = true ∧ hints_resolved boardOverlap = true ∧
    ((∀ (t : Nat) (rule : String × Nat ×
        (PuzzleBoard → List Deduction × PuzzleBoard)), rule ∈ RULES t →
      ∀ d ∈ (rule.2.2 boardOverlap).1,
        (getCell boardOverlap d.row d.col).state = EMPTY) ∧
    (∀ (applied : List (Nat × Nat × CellState)) (t : Nat),
      (applyTierRules boardOverlap applied (RULES t)).2 = boardOverlap ∧
      ∀ d ∈ (applyTierRules boardOverlap applied (RULES t)).1,
        (getCell boardOverlap d.row d.col).state = EMPTY) ∧
    (∀ (applied : List (Nat × Nat × CellState)) (ts : List Nat),
      (tryTiers boardOverlap applied ts).2 = boardOverlap ∧
      ∀ t deds eb, (tryTiers boardOverlap applied ts).1 = some (t, deds, eb) →
        ∀ d ∈ deds, (getCell boardOverlap d.row d.col).state = EMPTY)) :=
  ⟨by decide, by decide,
   C7_amended_empty_targets boardOverlap (by decide) (by decide)⟩

/-- Counterexample to C7 as stated: on a 2 by 2 board carrying a hint left
in EMPTY state, tiers 1-4 are silent and the T5.1 batch the driver selects
includes a deduction at the hint cell (0,0) — but the rule's own
snapshot/restore cycle has already resolved that cell to SEA in the board
the batch is applied to, so the applied deduction's pre-image cell is not
EMPTY. -/
theorem C7_counterexample :
    (tryTiers boardHintT5 [] [1, 2, 3, 4, 5]).1 =
      some (5,
        [make_deduction 0 0 SEA "T5.1" 5 9, make_deduction 0 1 SEA "T5.1" 5 9,
         make_deduction 1 0 SEA "T5.1" 5 9, make_deduction 1 1 SEA "T5.1" 5 9],
        4) ∧
    (getCell boardHintT5 0 0).state = EMPTY ∧
    (getCell (tryTiers boardHintT5 [] [1, 2, 3, 4, 5]).2 0 0).state = SEA := by
  refine ⟨by decide, by decide, by decide⟩
